import Mathlib

/-!
# Verification of the hex-grid thermal simulation core

This file is a shallow embedding, in Lean 4, of the tick engine of the
ReactorExperiment repository:

* the tick orchestrator `tickSimulation` (thermo_hex_tick.ts);
* the line-of-sight test `hexCornerLOS` and its planar geometry helpers
  (hexlib.ts);
* the shield-group toggle `ThermoGame.toggleShieldGroup` (game_2/game.ts).

Modelling conventions, chosen once and used throughout:

* JavaScript `number` (IEEE double) is idealised as `ℚ`: every arithmetic
  operation of the source is translated to the corresponding exact rational
  operation.  `NaN` results (the blocked outcome of `hexCornerLOS`) are
  represented by `Option`.
* A JavaScript `Map` is an insertion-ordered association list
  `List (K × V)`: `Map.get` is `lookupA`, `Map.set` is `setA` (replace in
  place if the key is present, append otherwise), iteration is list
  iteration.  A JavaScript `Set` is a duplicate-free `List` built with
  `insertA`.
* Cube-coordinate string keys (`hexCubeKey` / `parseHexCubeKey`, an
  injective encoding of integer triples into strings and its inverse) are
  idealised away: the key type is the coordinate triple `ℤ × ℤ × ℤ` itself.
* `Math.random()` is modelled by an explicit oracle `ℕ → ℚ` together with a
  draw counter: the n-th call of `Math.random()` in a tick returns
  `rand n`.
* The pixel geometry of `hexCornerLOS` under the engine's fixed
  `LOGIC_LAYOUT` (pointy orientation, unit size, zero origin) lives in the
  ring ℚ[√3], represented exactly by pairs `R3` of rationals; sign tests
  are decided exactly by `R3.sgnz`.
-/

set_option linter.unusedVariables false

namespace Reactor

/-! ## Association-list maps (JavaScript `Map`) -/

/-- `Map.get`: first entry with the given key. -/
def lookupA {K V : Type} [DecidableEq K] (m : List (K × V)) (k : K) : Option V :=
  (m.find? (fun e => e.1 = k)).map (·.2)

/-- `Map.set`: replace the value at `k` in place, or append a new entry. -/
def setA {K V : Type} [DecidableEq K] (m : List (K × V)) (k : K) (v : V) :
    List (K × V) :=
  match m with
  | [] => [(k, v)]
  | e :: t => if e.1 = k then (k, v) :: t else e :: setA t k v

/-- The key list of a map, in insertion order. -/
def keysA {K V : Type} (m : List (K × V)) : List K := m.map (·.1)

/-- `Map.get(k) ?? d`. -/
def getDA {K V : Type} [DecidableEq K] (m : List (K × V)) (k : K) (d : V) : V :=
  (lookupA m k).getD d

/-- Add `d` to the value at `k` (used for the accumulate-then-apply maps). -/
def addA {K : Type} [DecidableEq K] (m : List (K × ℚ)) (k : K) (d : ℚ) :
    List (K × ℚ) :=
  setA m k (getDA m k 0 + d)

/-- `Set.add`: append if absent (JavaScript sets are duplicate-free). -/
def insertA {K : Type} [DecidableEq K] (s : List K) (k : K) : List K :=
  if k ∈ s then s else s ++ [k]

/-- Sum of all values of a map. -/
def sumA {K : Type} (m : List (K × ℚ)) : ℚ := (m.map (·.2)).sum

/-! ## Hex coordinate kernel (hexlib.ts)

`HexCubeCoord` is an integer cube coordinate; the string key produced by
`hexCubeKey` is idealised to the coordinate itself (the encoding is
injective and `parseHexCubeKey` is its inverse on every key the engine
builds). -/

/-- A cube coordinate `(x, y, z)`. -/
abbrev Coord : Type := ℤ × ℤ × ℤ

/-- `HEX_CUBE_DIRS`: the six neighbor directions, in source order. -/
def HEX_CUBE_DIRS : List Coord :=
  [(1, -1, 0), (1, 0, -1), (0, 1, -1), (-1, 1, 0), (-1, 0, 1), (0, -1, 1)]

/-- `hexAdd`. -/
def hexAdd (a b : Coord) : Coord := (a.1 + b.1, a.2.1 + b.2.1, a.2.2 + b.2.2)

/-- `hexDir`: direction by index, modulo 6. -/
def hexDir (i : ℕ) : Coord := HEX_CUBE_DIRS.getD (i % 6) (0, 0, 0)

/-- `hexScale`. -/
def hexScale (a : Coord) (k : ℤ) : Coord := (a.1 * k, a.2.1 * k, a.2.2 * k)

/-- `hexNeighbor`. -/
def hexNeighbor (c : Coord) (i : ℕ) : Coord := hexAdd c (hexDir i)

/-- `hexLength`: `(|x| + |y| + |z|) / 2` (exact rational, as the source's
float division). -/
def hexLength (c : Coord) : ℚ :=
  ((c.1.natAbs + c.2.1.natAbs + c.2.2.natAbs : ℤ) : ℚ) / 2

/-- `hexSub`. -/
def hexSub (a b : Coord) : Coord := (a.1 - b.1, a.2.1 - b.2.1, a.2.2 - b.2.2)

/-- `hexDistance`. -/
def hexDistance (a b : Coord) : ℚ := hexLength (hexSub a b)

/-- One side of `hexRing`: walk `R` steps in direction `side` from `start`,
collecting the visited cells. -/
def hexRingSide (side : ℕ) : ℕ → Coord → List Coord × Coord
  | 0, c => ([], c)
  | n + 1, c =>
    let rest := hexRingSide side n (hexNeighbor c side)
    (c :: rest.1, rest.2)

/-- `hexRing`: the clockwise ring of radius `R` around `center` (the
R < 0 branch of the source cannot occur for a `ℕ` radius). -/
def hexRing (center : Coord) (R : ℕ) : List Coord :=
  if R = 0 then [center]
  else
    let start := hexAdd center (hexScale (hexDir 4) (R : ℤ))
    (List.range 6).foldl
      (fun acc side =>
        let s := hexRingSide side R acc.2
        (acc.1 ++ s.1, s.2))
      (([] : List Coord), start)
    |>.1

/-! ## Exact plane geometry over ℚ[√3]

Under `LOGIC_LAYOUT` (pointy orientation, `size = (1,1)`, `origin = (0,0)`)
every pixel coordinate that `hexCornerLOS` manipulates lies in the ring
ℚ[√3].  `R3 a b` denotes the real number `a + b·√3`; `R3.sgnz` decides its
sign exactly, so the float comparisons of the source become exact
comparisons of the idealised reals. -/

/-- An element `a + b·√3` of ℚ[√3]. -/
structure R3 where
  a : ℚ
  b : ℚ
deriving DecidableEq

namespace R3

def ofRat (q : ℚ) : R3 := ⟨q, 0⟩

instance : Add R3 := ⟨fun x y => ⟨x.a + y.a, x.b + y.b⟩⟩
instance : Sub R3 := ⟨fun x y => ⟨x.a - y.a, x.b - y.b⟩⟩
instance : Neg R3 := ⟨fun x => ⟨-x.a, -x.b⟩⟩
instance : Mul R3 := ⟨fun x y => ⟨x.a * y.a + 3 * x.b * y.b, x.a * y.b + x.b * y.a⟩⟩
instance : OfNat R3 0 := ⟨ofRat 0⟩
instance : OfNat R3 2 := ⟨ofRat 2⟩

/-- The exact sign (−1, 0, or 1) of `a + b·√3`. -/
def sgnz (x : R3) : ℤ :=
  if 0 ≤ x.a then
    if 0 ≤ x.b then (if x.a = 0 ∧ x.b = 0 then 0 else 1)
    else if 3 * x.b ^ 2 < x.a ^ 2 then 1
    else if x.a ^ 2 = 3 * x.b ^ 2 then 0
    else -1
  else
    if x.b ≤ 0 then -1
    else if x.a ^ 2 < 3 * x.b ^ 2 then 1
    else if x.a ^ 2 = 3 * x.b ^ 2 then 0
    else -1

/-- Strict order test `x < y` on the idealised reals. -/
def ltB (x y : R3) : Bool := (y - x).sgnz = 1

/-- Order test `x ≤ y`. -/
def leB (x y : R3) : Bool := (y - x).sgnz ≠ -1

/-- `Math.min` on two exact pixel coordinates. -/
def minB (x y : R3) : R3 := if leB x y then x else y

/-- `Math.max`. -/
def maxB (x y : R3) : R3 := if leB x y then y else x

/-- `Math.abs(x) <= e`. -/
def absLeB (x e : R3) : Bool := leB (-e) x && leB x e

/-- The real number denoted by an `R3`. -/
noncomputable def toReal (x : R3) : ℝ := (x.a : ℝ) + (x.b : ℝ) * Real.sqrt 3

/-- Scalar multiplication by a rational. -/
def smul (q : ℚ) (x : R3) : R3 := ⟨q * x.a, q * x.b⟩

end R3

/-- A pixel-space point with coordinates in ℚ[√3]. -/
structure Pt where
  x : R3
  y : R3
deriving DecidableEq

/-- `EPS = 1e-9` (hexlib.ts). -/
def EPS : R3 := R3.ofRat (1 / 1000000000)

/-- `orient(a, b, c)`: the cross product `(b-a) × (c-a)`. -/
def orient (a b c : Pt) : R3 :=
  (b.x - a.x) * (c.y - a.y) - (b.y - a.y) * (c.x - a.x)

/-- `onSegment(a, b, p)`: `p` is within the bounding box of `a, b` (inflated
by `EPS`) and collinear with them up to `EPS`. -/
def onSegment (a b p : Pt) : Bool :=
  R3.leB (R3.minB a.x b.x - EPS) p.x && R3.leB p.x (R3.maxB a.x b.x + EPS) &&
  R3.leB (R3.minB a.y b.y - EPS) p.y && R3.leB p.y (R3.maxB a.y b.y + EPS) &&
  R3.absLeB (orient a b p) EPS

/-- `segmentsIntersect(a, b, c, d)`: orientation general case plus the
collinear/touching cases. -/
def segmentsIntersect (a b c d : Pt) : Bool :=
  let o1 := orient a b c
  let o2 := orient a b d
  let o3 := orient c d a
  let o4 := orient c d b
  ((R3.ltB EPS o1 && R3.ltB o2 (-EPS) || R3.ltB o1 (-EPS) && R3.ltB EPS o2) &&
   (R3.ltB EPS o3 && R3.ltB o4 (-EPS) || R3.ltB o3 (-EPS) && R3.ltB EPS o4)) ||
  (R3.absLeB o1 EPS && onSegment a b c) ||
  (R3.absLeB o2 EPS && onSegment a b d) ||
  (R3.absLeB o3 EPS && onSegment c d a) ||
  (R3.absLeB o4 EPS && onSegment c d b)

/-- The edge list of a polygon: `(poly[i], poly[(i+1) % n])`. -/
def polyEdges (poly : List Pt) : List (Pt × Pt) := poly.zip (poly.rotate 1)

/-- `pointInConvexPolygon`: sign-consistency scan over the edges, treating
near-zero cross products (`|o| ≤ EPS`) as boundary and skipping them.
The accumulator carries the running sign and the early-exit flag. -/
def pipStep (p : Pt) (st : ℤ × Bool) (e : Pt × Pt) : ℤ × Bool :=
  if st.2 then st
  else
    let o := orient e.1 e.2 p
    if R3.absLeB o EPS then st
    else
      let s : ℤ := if R3.ltB 0 o then 1 else -1
      if st.1 = 0 then (s, false)
      else if st.1 ≠ s then (st.1, true)
      else st

def pointInConvexPolygon (p : Pt) (poly : List Pt) : Bool :=
  !((polyEdges poly).foldl (pipStep p) (0, false)).2

/-- `segmentIntersectsPolygon`: the segment crosses an edge, or its midpoint
lies inside the polygon (the fully-inside degenerate case). -/
def segmentIntersectsPolygon (a b : Pt) (poly : List Pt) : Bool :=
  (polyEdges poly).any (fun e => segmentsIntersect a b e.1 e.2) ||
  pointInConvexPolygon ⟨R3.smul (1/2) (a.x + b.x), R3.smul (1/2) (a.y + b.y)⟩ poly

/-- `hexToPixel` under `LOGIC_LAYOUT` (pointy, unit size, zero origin):
`x = √3·q + (√3/2)·r`, `y = (3/2)·r` with `q = c.x`, `r = c.z`. -/
def hexToPixel (c : Coord) : Pt :=
  ⟨⟨0, (c.1 : ℚ) + (c.2.2 : ℚ) / 2⟩, ⟨3 * (c.2.2 : ℚ) / 2, 0⟩⟩

/-- The six corner offsets `(cos(2πi/6), sin(2πi/6))`, `i = 0..5`, exactly in
ℚ[√3] (`hexCorners` with `startAngle = 0` and unit size). -/
def cornerOffsets : List Pt :=
  [⟨⟨1, 0⟩, ⟨0, 0⟩⟩, ⟨⟨1/2, 0⟩, ⟨0, 1/2⟩⟩, ⟨⟨-(1/2), 0⟩, ⟨0, 1/2⟩⟩,
   ⟨⟨-1, 0⟩, ⟨0, 0⟩⟩, ⟨⟨-(1/2), 0⟩, ⟨0, -(1/2)⟩⟩, ⟨⟨1/2, 0⟩, ⟨0, -(1/2)⟩⟩]

/-- `hexCorners(hex, LOGIC_LAYOUT)`. -/
def hexCorners (c : Coord) : List Pt :=
  let ctr := hexToPixel c
  cornerOffsets.map (fun o => ⟨ctr.x + o.x, ctr.y + o.y⟩)

/-- The corners of an obstacle hexagon inflated outward from its center by
the factor 1.1 (the grazing-leak guard of `hexCornerLOS`). -/
def inflatedCorners (c : Coord) : List Pt :=
  let ctr := hexToPixel c
  (hexCorners c).map (fun p =>
    ⟨ctr.x + R3.smul (11/10) (p.x - ctr.x), ctr.y + R3.smul (11/10) (p.y - ctr.y)⟩)

/-- `hexCornerLOS(a, b, LOGIC_LAYOUT, blocked, allHexesToConsider)`:
`some (hexDistance a b)` if any of the 36 corner-to-corner segments misses
every inflated obstacle polygon, `none` (the source's `NaN`) otherwise. -/
def hexCornerLOS (a b : Coord) (blocked : Coord → Bool) (allHexes : List Coord) :
    Option ℚ :=
  let aCorners := hexCorners a
  let bCorners := hexCorners b
  let obstacles : List (List Pt) :=
    (allHexes.filter (fun h => blocked h)).map inflatedCorners
  if aCorners.any (fun p => bCorners.any (fun q =>
      !obstacles.any (fun poly => segmentIntersectsPolygon p q poly))) then
    some (hexDistance a b)
  else
    none

/-! ## Data model (thermo_hex_tick.ts)

A copy of a JavaScript `Map` (`new Map(m)`, or the entry-wise copy loops of
the clone step) is value-identical to the original, so map copies are the
identity in this embedding; the deep copies of the capacitor/reservoir
objects likewise.  Optional boolean fields (`destroyed?`, `disabled?`)
default to `false`, matching the truthiness of `undefined`. -/

structure Capacitor where
  id : ℤ
  stored : ℚ
  capacity : ℚ
  drainRate : ℚ
  surchargeCost : ℚ
deriving DecidableEq

structure Radiator where
  deployed : Bool
  strength : ℚ
deriving DecidableEq

structure Reservoir where
  id : ℤ
  heat : ℚ
  volume : ℚ
  radiator : Radiator
deriving DecidableEq

/-- The per-variant payload of the entity tagged union. -/
inductive EKind
  | source (power : ℚ) (active : Bool) (minActivation : ℚ)
  | sink (pullRate : ℚ) (conductivity : ℚ)
  | shield (conductivity : ℚ) (retainedE : Option ℚ)
  | probe
deriving DecidableEq

structure Entity where
  pos : Coord
  groupId : Option ℤ := none
  disabled : Bool := false
  destroyed : Bool := false
  heatTolerance : Option ℚ := none
  kind : EKind
deriving DecidableEq

namespace Entity

def isSourceE (e : Entity) : Bool := match e.kind with | .source .. => true | _ => false
def isSinkE (e : Entity) : Bool := match e.kind with | .sink .. => true | _ => false
def isShieldE (e : Entity) : Bool := match e.kind with | .shield .. => true | _ => false
def isProbeE (e : Entity) : Bool := match e.kind with | .probe => true | _ => false

/-- `source.active`. -/
def isActive (e : Entity) : Bool := match e.kind with | .source _ a _ => a | _ => false

/-- `source.power`. -/
def power (e : Entity) : ℚ := match e.kind with | .source p _ _ => p | _ => 0

/-- `shield.conductivity` / `sink.conductivity`. -/
def conductivity (e : Entity) : ℚ :=
  match e.kind with
  | .shield c _ => c
  | .sink _ c => c
  | _ => 0

end Entity

/-- The simulation state (part of it is per-tick diagnostics). -/
structure SimulationState where
  entities : List (Coord × Entity)
  E : List (Coord × ℚ)
  capacitors : List (ℤ × Capacitor)
  reservoirs : List (ℤ × Reservoir)
  groupThrottles : List (ℤ × ℚ)
  probeThrottles : List (ℤ × ℚ)
  disabledShieldGroups : List ℤ
  totalEnergyCollected : List (ℤ × ℚ)
  lastTickEnergy : List (ℤ × ℚ)
  lastCapacitorDelta : List (ℤ × ℚ)
  lastDeltaE : List (Coord × ℚ)
  lastPerimeterEnergy : ℚ
  tickCount : ℤ
  radius : ℕ
  diffusionAlpha : ℚ
  baseConductivity : ℚ
deriving DecidableEq

structure TickResult where
  energyCollected : List (ℤ × ℚ)
  nextState : SimulationState
deriving DecidableEq

/-! ## Tick phases (thermo_hex_tick.ts, `tickSimulation`) -/

def SHIELD_FAILURE_PROBABILITY : ℚ := 5 / 100
def SINK_FAILURE_PROBABILITY : ℚ := 5 / 100
def PROBE_FAILURE_PROBABILITY : ℚ := 5 / 100

/-- Entity sorting (step 0): the entities of one kind, in map order. -/
def sourcesOf (ents : List (Coord × Entity)) : List Entity :=
  (ents.map (·.2)).filter Entity.isSourceE

def sinksOf (ents : List (Coord × Entity)) : List Entity :=
  (ents.map (·.2)).filter Entity.isSinkE

def shieldsOf (ents : List (Coord × Entity)) : List Entity :=
  (ents.map (·.2)).filter Entity.isShieldE

def probesOf (ents : List (Coord × Entity)) : List Entity :=
  (ents.map (·.2)).filter Entity.isProbeE

/-- Accumulator of an overheat pass: the next-state entity map, the
`Math.random()` draw counter, and the newly destroyed keys. -/
structure OverheatAcc where
  ents : List (Coord × Entity)
  idx : ℕ
  newKeys : List Coord
deriving DecidableEq

/-- One entity of an overheat check (steps 0.05-0.07): an alive entity whose
cell temperature in the prior field strictly exceeds its tolerance is
destroyed with probability `pFail` (one `Math.random()` draw). -/
def overheatStep (E0 : List (Coord × ℚ)) (rand : ℕ → ℚ) (tolDefault pFail : ℚ)
    (acc : OverheatAcc) (e : Entity) : OverheatAcc :=
  if e.destroyed then acc
  else
    let k := e.pos
    let temp := getDA E0 k 0
    let tol := e.heatTolerance.getD tolDefault
    if temp > tol then
      if rand acc.idx < pFail then
        { ents := setA acc.ents k { e with destroyed := true },
          idx := acc.idx + 1,
          newKeys := insertA acc.newKeys k }
      else
        { acc with idx := acc.idx + 1 }
    else acc

def overheatPass (E0 : List (Coord × ℚ)) (rand : ℕ → ℚ) (tolDefault pFail : ℚ)
    (es : List Entity) (acc0 : OverheatAcc) : OverheatAcc :=
  es.foldl (overheatStep E0 rand tolDefault pFail) acc0

/-- The LOS-blocking keys (step 0.1): shields not destroyed (also not newly
destroyed this tick) whose group is not disabled. -/
def blockKeyStep (newly : List Coord) (disabled : List ℤ)
    (acc : List Coord) (sh : Entity) : List Coord :=
  if sh.pos ∈ newly || sh.destroyed then acc
  else
    let isDisabled := match sh.groupId with
      | some g => decide (g ∈ disabled)
      | none => false
    if isDisabled then acc else insertA acc sh.pos

def blockKeysOf (shields : List Entity) (newly : List Coord) (disabled : List ℤ) :
    List Coord :=
  shields.foldl (blockKeyStep newly disabled) []

/-- One probe of the LOS destruction check: skip probes destroyed in the input
state or earlier this tick, otherwise destroy on sight of any active source. -/
def losStep (sources : List Entity) (shieldKeys : List Coord)
    (acc : List (Coord × Entity) × List Coord) (p : Entity) :
    List (Coord × Entity) × List Coord :=
  let k := p.pos
  let nextDestroyed := match lookupA acc.1 k with
    | some e => e.destroyed
    | none => false
  if nextDestroyed then (acc.1, insertA acc.2 k)
  else if p.destroyed then (acc.1, insertA acc.2 k)
  else
    let hit := sources.any (fun s =>
      s.isActive &&
        (hexCornerLOS k s.pos (fun h => decide (h ∈ shieldKeys)) shieldKeys).isSome)
    if hit then (setA acc.1 k { p with destroyed := true }, insertA acc.2 k)
    else acc

def losPass (sources : List Entity) (shieldKeys : List Coord)
    (probes : List Entity) (ents : List (Coord × Entity)) :
    List (Coord × Entity) × List Coord :=
  probes.foldl (losStep sources shieldKeys) (ents, [])

/-- Capacitor logic (step 0.2): a bank at or above capacity forces its
group's effective probe throttle to 0, then every bank drains by
`drainRate` (floored at 0, clamped to capacity). -/
def capStep (acc : List (ℤ × Capacitor) × List (ℤ × ℚ)) (entry : ℤ × Capacitor) :
    List (ℤ × Capacitor) × List (ℤ × ℚ) :=
  let gid := entry.1
  let cap := entry.2
  let eff := if cap.stored ≥ cap.capacity then setA acc.2 gid 0 else acc.2
  let s1 := max 0 (cap.stored - cap.drainRate)
  let s2 := if s1 > cap.capacity then cap.capacity else s1
  (acc.1 ++ [(gid, { cap with stored := s2 })], eff)

def capacitorPhase (caps : List (ℤ × Capacitor)) (probeThrottles : List (ℤ × ℚ)) :
    List (ℤ × Capacitor) × List (ℤ × ℚ) :=
  caps.foldl capStep ([], probeThrottles)

/-- Snap sink cells to their reservoir's surface temperature
(step 0.5, and again after the reservoir update). -/
def snapSinkStep (reservoirs : List (ℤ × Reservoir))
    (E : List (Coord × ℚ)) (s : Entity) : List (Coord × ℚ) :=
  match s.groupId with
  | none => E
  | some g =>
    match lookupA reservoirs g with
    | none => E
    | some r => setA E s.pos (r.heat / max 1 r.volume)

def snapSinks (reservoirs : List (ℤ × Reservoir)) (sinks : List Entity)
    (E : List (Coord × ℚ)) : List (Coord × ℚ) :=
  sinks.foldl (snapSinkStep reservoirs) E

def clamp01Positive (v : ℚ) : ℚ := if v < 0 then 0 else v

/-- One shield of the conductivity derivation: skip disabled groups and
out-of-domain cells, otherwise min-clamp. -/
def condShieldStep (E : List (Coord × ℚ)) (disabled : List ℤ) (baseK : ℚ)
    (m : List (Coord × ℚ)) (sh : Entity) : List (Coord × ℚ) :=
  let isDisabled := match sh.groupId with
    | some g => decide (g ∈ disabled)
    | none => false
  if isDisabled then m
  else if (lookupA E sh.pos).isNone then m
  else setA m sh.pos (min (getDA m sh.pos baseK) (clamp01Positive sh.conductivity))

/-- One sink of the conductivity derivation. -/
def condSinkStep (E : List (Coord × ℚ)) (baseK : ℚ)
    (m : List (Coord × ℚ)) (si : Entity) : List (Coord × ℚ) :=
  if (lookupA E si.pos).isNone then m
  else setA m si.pos (min (getDA m si.pos baseK) (clamp01Positive si.conductivity))

/-- Grid prep (step 1): base conductivity everywhere, min-clamped by shields
whose group is not disabled and by sinks (in-domain positions only). -/
def conductivityMap (E : List (Coord × ℚ)) (shields sinks : List Entity)
    (disabled : List ℤ) (baseK : ℚ) : List (Coord × ℚ) :=
  let m0 := (keysA E).foldl (fun m k => setA m k baseK) []
  let m1 := shields.foldl (condShieldStep E disabled baseK) m0
  sinks.foldl (condSinkStep E baseK) m1

/-- Comparison definition for the conductivity claim, following the spec's
extensional description (amended: no destroyed-shield filter, since the
source applies the clamp regardless of the `destroyed` flag): the clamp
values applicable at cell `k` — one per shield at `k` whose group is not
disabled, and one per sink at `k`. -/
def specConductivityClampsAt (shields sinks : List Entity) (disabled : List ℤ)
    (k : Coord) : List ℚ :=
  (shields.filter (fun sh =>
    !(match sh.groupId with
      | some g => decide (g ∈ disabled)
      | none => false) && sh.pos = k)).map (fun sh => clamp01Positive sh.conductivity)
  ++ (sinks.filter (fun si => si.pos = k)).map
      (fun si => clamp01Positive si.conductivity)

/-- Source injection (step 2): active sources add `power × throttle` to their
in-domain cell; the injected amounts are also tracked per cell. -/
def injectStep (groupThrottles : List (ℤ × ℚ))
    (acc : List (Coord × ℚ) × List (Coord × ℚ)) (s : Entity) :
    List (Coord × ℚ) × List (Coord × ℚ) :=
  if !s.isActive then acc
  else
    let k := s.pos
    if (lookupA acc.1 k).isNone then acc
    else
      let throttle := match s.groupId with
        | some g => getDA groupThrottles g 1
        | none => 1
      let added := s.power * throttle
      (addA acc.1 k added, addA acc.2 k added)

def injectSources (groupThrottles : List (ℤ × ℚ)) (sources : List Entity)
    (E : List (Coord × ℚ)) : List (Coord × ℚ) × List (Coord × ℚ) :=
  sources.foldl (injectStep groupThrottles) (E, [])

def halfDirs : List Coord := [(1, -1, 0), (1, 0, -1), (0, 1, -1)]

/-- Diffusion (step 3): accumulate the symmetric flux over each undirected
edge (3 of the 6 directions per cell) into a delta map. -/
def diffuseDirStep (E cond : List (Coord × ℚ)) (baseK alpha : ℚ)
    (aKey : Coord) (d : List (Coord × ℚ)) (dir : Coord) : List (Coord × ℚ) :=
  let Ea := getDA E aKey 0
  let ka := getDA cond aKey baseK
  let bKey := hexAdd aKey dir
  if (lookupA E bKey).isNone then d
  else
    let Eb := getDA E bKey 0
    let kb := getDA cond bKey baseK
    let kEdge := min ka kb
    let flux := kEdge * alpha * (Ea - Eb)
    addA (addA d aKey (-flux)) bKey flux

def diffuseCell (E cond : List (Coord × ℚ)) (baseK alpha : ℚ) (aKey : Coord)
    (delta : List (Coord × ℚ)) : List (Coord × ℚ) :=
  halfDirs.foldl (diffuseDirStep E cond baseK alpha aKey) delta

def diffusionDeltas (E cond : List (Coord × ℚ)) (baseK alpha : ℚ) :
    List (Coord × ℚ) :=
  let delta0 := (keysA E).foldl (fun m k => setA m k 0) []
  (keysA E).foldl (fun d aKey => diffuseCell E cond baseK alpha aKey d) delta0

/-- The sink-cell key set. -/
def sinkKeysOf (sinks : List Entity) : List Coord :=
  sinks.foldl (fun s k => insertA s k.pos) []

/-- Sink/reservoir exchange (step 4): the source injection plus diffusion
delta at each sink cell is routed into the sink's reservoir. -/
def resExchangeStep (srcIn delta : List (Coord × ℚ))
    (res : List (ℤ × Reservoir)) (s : Entity) : List (ℤ × Reservoir) :=
  match s.groupId with
  | none => res
  | some g =>
    match lookupA res g with
    | none => res
    | some r =>
      let totalIn := getDA srcIn s.pos 0 + getDA delta s.pos 0
      setA res g { r with heat := r.heat + totalIn }

def resExchange (srcIn delta : List (Coord × ℚ)) (sinks : List Entity)
    (reservoirs : List (ℤ × Reservoir)) : List (ℤ × Reservoir) :=
  sinks.foldl (resExchangeStep srcIn delta) reservoirs

/-- Reservoir update (step 5): a deployed radiator loses
`min(heat, strength)`. -/
def radiatorStep (r : Reservoir) : Reservoir :=
  if r.radiator.deployed then { r with heat := r.heat - min r.heat r.radiator.strength }
  else r

def radiatorPhase (res : List (ℤ × Reservoir)) : List (ℤ × Reservoir) :=
  res.map (fun e => (e.1, radiatorStep e.2))

/-- Apply the diffusion deltas to every non-sink cell. -/
def applyDeltaStep (sinkKeys : List Coord) (E : List (Coord × ℚ))
    (e : Coord × ℚ) : List (Coord × ℚ) :=
  if e.1 ∈ sinkKeys then E else addA E e.1 e.2

def applyDeltas (sinkKeys : List Coord) (delta : List (Coord × ℚ))
    (E : List (Coord × ℚ)) : List (Coord × ℚ) :=
  delta.foldl (applyDeltaStep sinkKeys) E

def PROBE_TRANSFER_RATE : ℚ := 9 / 10
def ENGINE_EFFICIENCY : ℚ := 3 / 10

/-- The probe groups (step 6): cells of the non-destroyed probes, grouped by
`groupId ?? 1` in first-appearance order. -/
def probeGroupStep (destroyedKeys : List Coord)
    (pg : List (ℤ × List Coord)) (p : Entity) : List (ℤ × List Coord) :=
  if p.pos ∈ destroyedKeys then pg
  else
    let gid := p.groupId.getD 1
    match lookupA pg gid with
    | none => pg ++ [(gid, [p.pos])]
    | some l => setA pg gid (l ++ [p.pos])

def probeGroupsOf (probes : List Entity) (destroyedKeys : List Coord) :
    List (ℤ × List Coord) :=
  probes.foldl (probeGroupStep destroyedKeys) []

/-- Accumulator of the probe-collection pass. -/
structure CollectAcc where
  E : List (Coord × ℚ)
  collected : List (ℤ × ℚ)
  caps : List (ℤ × Capacitor)
deriving DecidableEq

/-- Reading one probe cell of a group: record its value, accumulate the
total and the live count (cells missing from the field are skipped). -/
def valsStep (E : List (Coord × ℚ)) (v : List (Coord × ℚ) × ℚ × ℕ)
    (k : Coord) : List (Coord × ℚ) × ℚ × ℕ :=
  if (lookupA E k).isNone then v
  else
    let val := getDA E k 0
    (setA v.1 k val, v.2.1 + val, v.2.2 + 1)

/-- Accumulate one cell's excess or deficit against the group mean. -/
def exdefStep (mean : ℚ) (p : ℚ × ℚ) (e : Coord × ℚ) : ℚ × ℚ :=
  if e.2 > mean then (p.1 + (e.2 - mean), p.2) else (p.1, p.2 + (mean - e.2))

/-- Move heat for one cell: hot cells lose their share of `qMove`, cold
cells gain their share of `qDump`. -/
def dumpStep (mean totalExcess totalDeficit qMove qDump : ℚ)
    (E : List (Coord × ℚ)) (e : Coord × ℚ) : List (Coord × ℚ) :=
  let change :=
    if e.2 > mean then -1 * qMove * ((e.2 - mean) / totalExcess)
    else if e.2 < mean && totalDeficit > 0 then
      qDump * ((mean - e.2) / totalDeficit)
    else 0
  addA E e.1 change

/-- One probe group of the collection pass (step 6): the heat-engine model,
clamped by capacitor headroom. -/
def collectStep (eff : List (ℤ × ℚ)) (acc : CollectAcc) (entry : ℤ × List Coord) :
    CollectAcc :=
  let gid := entry.1
  let keyList := entry.2
  let throttle := getDA eff gid 0
  if throttle ≤ 0 then acc
  else
    let mwa : Option ℚ := (lookupA acc.caps gid).map (fun c => c.capacity - c.stored)
    if (match mwa with | some room => decide (room ≤ 0) | none => false) then acc
    else
      let vals := keyList.foldl (valsStep acc.E) ([], 0, 0)
      let values := vals.1
      let totalE := vals.2.1
      let count := vals.2.2
      if count < 2 then acc
      else
        let mean := totalE / count
        let exdef := values.foldl (exdefStep mean) (0, 0)
        let totalExcess := exdef.1
        let totalDeficit := exdef.2
        if totalExcess < 1 / 10000 then acc
        else
          let qMove0 := totalExcess * throttle * PROBE_TRANSFER_RATE
          let qMove := match mwa with
            | none => qMove0
            | some room =>
              let maxQMove := room / ENGINE_EFFICIENCY
              if qMove0 > maxQMove then maxQMove else qMove0
          let work := qMove * ENGINE_EFFICIENCY
          let qDump := qMove - work
          let E1 := values.foldl
            (dumpStep mean totalExcess totalDeficit qMove qDump) acc.E
          let collected1 := setA acc.collected gid work
          let caps1 := match lookupA acc.caps gid with
            | none => acc.caps
            | some c =>
              setA acc.caps gid { c with stored := min c.capacity (c.stored + work) }
          ⟨E1, collected1, caps1⟩

def collectPhase (eff : List (ℤ × ℚ)) (groups : List (ℤ × List Coord))
    (E : List (Coord × ℚ)) (caps : List (ℤ × Capacitor)) : CollectAcc :=
  groups.foldl (collectStep eff) ⟨E, [], caps⟩

/-- Cleanup (end of tick): snap magnitudes below 1e-12 to 0 and record the
per-cell delta against the prior field. -/
def cleanupStep (Eold : List (Coord × ℚ))
    (acc : List (Coord × ℚ) × List (Coord × ℚ)) (e : Coord × ℚ) :
    List (Coord × ℚ) × List (Coord × ℚ) :=
  let cleaned := if |e.2| < 1 / 1000000000000 then 0 else e.2
  let old := getDA Eold e.1 0
  (setA acc.1 e.1 cleaned, setA acc.2 e.1 (cleaned - old))

def cleanupPhase (Eold E : List (Coord × ℚ)) :
    List (Coord × ℚ) × List (Coord × ℚ) :=
  E.foldl (cleanupStep Eold) (E, [])

/-- Finalize the per-capacitor deltas against the pre-drain charge. -/
def capDeltaStep (initial : List (ℤ × ℚ)) (m : List (ℤ × ℚ))
    (e : ℤ × Capacitor) : List (ℤ × ℚ) :=
  setA m e.1 (e.2.stored - getDA initial e.1 e.2.stored)

def capDeltas (initial : List (ℤ × ℚ)) (caps : List (ℤ × Capacitor)) :
    List (ℤ × ℚ) :=
  caps.foldl (capDeltaStep initial) []

/-- Accumulate this tick's collected energy into the running totals. -/
def accumCollected (tot collected : List (ℤ × ℚ)) : List (ℤ × ℚ) :=
  collected.foldl (fun t e => addA t e.1 e.2) tot

/-- Perimeter energy: the field summed over the radius-`R` ring around the
origin. -/
def perimeterOf (E : List (Coord × ℚ)) (radius : ℕ) : ℚ :=
  (hexRing (0, 0, 0) radius).foldl (fun s h => s + getDA E h 0) 0

/-! The stages of one tick, in source order, as named definitions
(`tickSimulation` below strings them together). -/

/-- Step 0.05: shield overheat check, starting from the cloned entity map
with the draw counter at 0. -/
def shieldOverheat (rand : ℕ → ℚ) (st : SimulationState) : OverheatAcc :=
  overheatPass st.E rand 2000 SHIELD_FAILURE_PROBABILITY (shieldsOf st.entities)
    ⟨st.entities, 0, []⟩

/-- Step 0.06: sink overheat check. -/
def sinkOverheat (rand : ℕ → ℚ) (st : SimulationState) : OverheatAcc :=
  let a := shieldOverheat rand st
  overheatPass st.E rand 1400 SINK_FAILURE_PROBABILITY (sinksOf st.entities)
    ⟨a.ents, a.idx, []⟩

/-- Step 0.07: probe overheat check. -/
def probeOverheat (rand : ℕ → ℚ) (st : SimulationState) : OverheatAcc :=
  let a := sinkOverheat rand st
  overheatPass st.E rand 1800 PROBE_FAILURE_PROBABILITY (probesOf st.entities)
    ⟨a.ents, a.idx, []⟩

/-- Step 0.1 prelude: the current LOS-blocking shield keys. -/
def tickShieldKeys (rand : ℕ → ℚ) (st : SimulationState) : List Coord :=
  blockKeysOf (shieldsOf st.entities) (shieldOverheat rand st).newKeys
    st.disabledShieldGroups

/-- Step 0.1: LOS probe destruction (next entity map, destroyed probe keys). -/
def tickLosRes (rand : ℕ → ℚ) (st : SimulationState) :
    List (Coord × Entity) × List Coord :=
  losPass (sourcesOf st.entities) (tickShieldKeys rand st) (probesOf st.entities)
    (probeOverheat rand st).ents

/-- Step 0.2: capacitor drain and effective probe throttles. -/
def tickCapRes (st : SimulationState) : List (ℤ × Capacitor) × List (ℤ × ℚ) :=
  capacitorPhase st.capacitors st.probeThrottles

/-- Step 0.5: the field with sink cells snapped to reservoir temperature. -/
def tickE1 (st : SimulationState) : List (Coord × ℚ) :=
  snapSinks st.reservoirs (sinksOf st.entities) st.E

/-- Step 1: the conductivity map used by the diffusion pass. -/
def tickCond (st : SimulationState) : List (Coord × ℚ) :=
  conductivityMap (tickE1 st) (shieldsOf st.entities) (sinksOf st.entities)
    st.disabledShieldGroups st.baseConductivity

/-- Step 2: source injection (field, tracked inputs). -/
def tickInj (st : SimulationState) : List (Coord × ℚ) × List (Coord × ℚ) :=
  injectSources st.groupThrottles (sourcesOf st.entities) (tickE1 st)

/-- Step 3: the accumulated diffusion deltas. -/
def tickDelta (st : SimulationState) : List (Coord × ℚ) :=
  diffusionDeltas (tickInj st).1 (tickCond st) st.baseConductivity
    st.diffusionAlpha

/-- Step 4: reservoirs after the sink-cell exchange. -/
def tickRes1 (st : SimulationState) : List (ℤ × Reservoir) :=
  resExchange (tickInj st).2 (tickDelta st) (sinksOf st.entities) st.reservoirs

/-- Step 5: reservoirs after radiator loss. -/
def tickRes2 (st : SimulationState) : List (ℤ × Reservoir) :=
  radiatorPhase (tickRes1 st)

/-- Step 5: the field with deltas applied to non-sink cells. -/
def tickE3 (st : SimulationState) : List (Coord × ℚ) :=
  applyDeltas (sinkKeysOf (sinksOf st.entities)) (tickDelta st) (tickInj st).1

/-- Step 5: the field with sink cells re-snapped to the final reservoir
temperature. -/
def tickE4 (st : SimulationState) : List (Coord × ℚ) :=
  snapSinks (tickRes2 st) (sinksOf st.entities) (tickE3 st)

/-- Step 6 prelude: the live probe groups. -/
def tickGroups (rand : ℕ → ℚ) (st : SimulationState) : List (ℤ × List Coord) :=
  probeGroupsOf (probesOf st.entities) (tickLosRes rand st).2

/-- Step 6: probe collection. -/
def tickColl (rand : ℕ → ℚ) (st : SimulationState) : CollectAcc :=
  collectPhase (tickCapRes st).2 (tickGroups rand st) (tickE4 st) (tickCapRes st).1

/-- End of tick: numeric cleanup and per-cell deltas. -/
def tickCleaned (rand : ℕ → ℚ) (st : SimulationState) :
    List (Coord × ℚ) × List (Coord × ℚ) :=
  cleanupPhase st.E (tickColl rand st).E

/-- `tickSimulation(state)`: one full tick.  `rand` is the `Math.random()`
oracle (the n-th draw of the tick is `rand n`). -/
def tickSimulation (rand : ℕ → ℚ) (state : SimulationState) : TickResult :=
  let initialCapStored := state.capacitors.map (fun e => (e.1, e.2.stored))
  let coll := tickColl rand state
  let E5 := (tickCleaned rand state).1
  { energyCollected := coll.collected
    nextState :=
      { entities := (tickLosRes rand state).1
        E := E5
        capacitors := coll.caps
        reservoirs := tickRes2 state
        groupThrottles := state.groupThrottles
        probeThrottles := state.probeThrottles
        disabledShieldGroups := state.disabledShieldGroups
        totalEnergyCollected := accumCollected state.totalEnergyCollected coll.collected
        lastTickEnergy := coll.collected
        lastCapacitorDelta := capDeltas initialCapStored coll.caps
        lastDeltaE := (tickCleaned rand state).2
        lastPerimeterEnergy := perimeterOf E5 state.radius
        tickCount := state.tickCount + 1
        radius := state.radius
        diffusionAlpha := state.diffusionAlpha
        baseConductivity := state.baseConductivity } }

/-! ## The shield-group toggle (game_2/game.ts, `ThermoGame`)

`toggleShieldGroup` touches only the energy field, the entity map and the
disabled-group set of the game object; `GameState` models exactly these
three fields (the other `ThermoGame` members are read nor written by it).
Entities here are the `game.ts` union, whose shields carry `savedTemp`. -/

/-- The `game.ts` entity union (payload fields that `toggleShieldGroup`
never reads are kept for fidelity of the data model). -/
inductive GEntity
  | gsource (power : ℚ) (active : Bool) (minActivation : ℚ) (groupId : ℤ)
  | gsink (stored pullRate dumpMax capacityScale conductivity : ℚ)
  | gshield (conductivity : ℚ) (groupId : ℤ) (savedTemp : Option ℚ)
  | gprobe (groupId : ℤ)
deriving DecidableEq

structure GameState where
  E : List (Coord × ℚ)
  entities : List (Coord × GEntity)
  disabledShieldGroups : List ℤ
deriving DecidableEq

/-- One entity of the enabling loop: a member shield with a stored
`savedTemp` writes it back into its field cell and clears it. -/
def enableStep (groupId : ℤ)
    (acc : List (Coord × ℚ) × List (Coord × GEntity)) (ke : Coord × GEntity) :
    List (Coord × ℚ) × List (Coord × GEntity) :=
  match ke.2 with
  | .gshield c gid (some t) =>
    if gid = groupId then
      (setA acc.1 ke.1 t, acc.2 ++ [(ke.1, .gshield c gid none)])
    else (acc.1, acc.2 ++ [ke])
  | _ => (acc.1, acc.2 ++ [ke])

/-- One entity of the disabling loop: a member shield records the current
field value (`this.E.get(k) || 0`) into `savedTemp`. -/
def disableEntity (E : List (Coord × ℚ)) (groupId : ℤ)
    (ke : Coord × GEntity) : Coord × GEntity :=
  match ke.2 with
  | .gshield c gid st =>
    if gid = groupId then (ke.1, .gshield c gid (some (getDA E ke.1 0)))
    else ke
  | _ => ke

/-- `ThermoGame.toggleShieldGroup(groupId)`.  Enabling restores each member
shield's `savedTemp` into its field cell and clears it; disabling records
the current field value into `savedTemp` and — per the source comment —
leaves the cell's temperature as it is. -/
def toggleShieldGroup (g : GameState) (groupId : ℤ) : GameState :=
  if groupId ∈ g.disabledShieldGroups then
    let res := g.entities.foldl (enableStep groupId) (g.E, [])
    { E := res.1
      entities := res.2
      disabledShieldGroups := g.disabledShieldGroups.filter (fun x => x ≠ groupId) }
  else
    { E := g.E
      entities := g.entities.map (disableEntity g.E groupId)
      disabledShieldGroups := insertA g.disabledShieldGroups groupId }

/-! ## Concrete states used by the counterexamples and witnesses -/

/-- An all-empty simulation state (radius 1, `α = 0.1`, `baseConductivity
= 1`), updated below per scenario. -/
def emptyState : SimulationState :=
  { entities := []
    E := []
    capacitors := []
    reservoirs := []
    groupThrottles := []
    probeThrottles := []
    disabledShieldGroups := []
    totalEnergyCollected := []
    lastTickEnergy := []
    lastCapacitorDelta := []
    lastDeltaE := []
    lastPerimeterEnergy := 0
    tickCount := 0
    radius := 1
    diffusionAlpha := 1/10
    baseConductivity := 1 }

/-- The six ring-1 cells, in `HEX_CUBE_DIRS` order. -/
def ring1 : List Coord :=
  [(1, -1, 0), (1, 0, -1), (0, 1, -1), (-1, 1, 0), (-1, 0, 1), (0, -1, 1)]

/-- The hot-center board of the instability-boundary scenario: center 100,
ring-1 neighbors 0, no entities. -/
def hotCenterState (alpha : ℚ) : SimulationState :=
  { emptyState with
    E := ((0, 0, 0), (100 : ℚ)) :: ring1.map (fun c => (c, (0 : ℚ)))
    diffusionAlpha := alpha }

/-- A state with one alive shield far above its default tolerance, whose
destruction therefore hinges on the `Math.random()` draw. -/
def hotShieldState : SimulationState :=
  { emptyState with
    entities := [((0, 0, 0), { pos := (0, 0, 0), kind := .shield 1 none })]
    E := [((0, 0, 0), (3000 : ℚ))] }

/-- A probe in clear line of sight of an *already destroyed* but still
`active` source (power 0 so that injection is immaterial). -/
def destroyedSourceState : SimulationState :=
  { emptyState with
    entities :=
      [((0, 0, 0), { pos := (0, 0, 0), kind := .probe }),
       ((1, -1, 0),
        { pos := (1, -1, 0), destroyed := true, kind := .source 0 true 0 })]
    E := [((0, 0, 0), (0 : ℚ)), ((1, -1, 0), (0 : ℚ))] }

/-- A destroyed, non-disabled shield of conductivity 1/2 on a one-cell board
with base conductivity 1. -/
def destroyedShieldState : SimulationState :=
  { emptyState with
    entities :=
      [((0, 0, 0),
        { pos := (0, 0, 0), destroyed := true, kind := .shield (1/2) none })]
    E := [((0, 0, 0), (0 : ℚ))] }

/-- A sink positioned outside the one-cell field domain, with a reservoir
for its group. -/
def outOfDomainSinkState : SimulationState :=
  { emptyState with
    entities :=
      [((5, -5, 0), { pos := (5, -5, 0), groupId := some 1, kind := .sink 0 1 })]
    E := [((0, 0, 0), (0 : ℚ))]
    reservoirs := [(1, { id := 1, heat := 10, volume := 1,
                         radiator := { deployed := false, strength := 0 } })] }

/-- A full capacitor (stored = capacity = 5) for probe group 1, two probes of
that group on unequal cells, and a caller throttle of 1. -/
def fullCapacitorState : SimulationState :=
  { emptyState with
    entities :=
      [((0, 0, 0), { pos := (0, 0, 0), groupId := some 1, kind := .probe }),
       ((1, -1, 0), { pos := (1, -1, 0), groupId := some 1, kind := .probe })]
    E := [((0, 0, 0), (100 : ℚ)), ((1, -1, 0), (0 : ℚ))]
    capacitors := [(1, { id := 1, stored := 5, capacity := 5, drainRate := 0,
                         surchargeCost := 0 })]
    probeThrottles := [(1, 1)] }

/-- The game of the shield-toggle scenario: one group-2 shield at the origin
over a field value of 100, group currently enabled. -/
def toggleGame : GameState :=
  { E := [((0, 0, 0), (100 : ℚ))]
    entities := [((0, 0, 0), .gshield (1/10) 2 none)]
    disabledShieldGroups := [] }


/-! # Theorems

Everything from here on is proof: first the generic association-list and
sign lemmas, then the claim theorems. -/

theorem keysA_nil {K V : Type} : keysA ([] : List (K × V)) = [] := rfl

theorem keysA_cons {K V : Type} (e : K × V) (t : List (K × V)) :
    keysA (e :: t) = e.1 :: keysA t := rfl

theorem lookupA_nil {K V : Type} [DecidableEq K] (k : K) :
    lookupA ([] : List (K × V)) k = none := rfl

theorem lookupA_cons {K V : Type} [DecidableEq K] (e : K × V) (t : List (K × V))
    (k : K) :
    lookupA (e :: t) k = if e.1 = k then some e.2 else lookupA t k := by
  by_cases h : e.1 = k <;> simp [lookupA, List.find?, h]

theorem keysA_setA_of_mem {K V : Type} [DecidableEq K] (m : List (K × V))
    (k : K) (v : V) (hk : k ∈ keysA m) : keysA (setA m k v) = keysA m := by
  induction m with
  | nil => simp [keysA_nil] at hk
  | cons e t ih =>
    by_cases h : e.1 = k
    · simp [setA, h, keysA_cons]
    · rw [keysA_cons, List.mem_cons] at hk
      rcases hk with hk | hk
      · exact absurd hk.symm h
      · simp only [setA, if_neg h, keysA_cons, ih hk]

theorem keysA_setA_of_not_mem {K V : Type} [DecidableEq K] (m : List (K × V))
    (k : K) (v : V) (hk : k ∉ keysA m) : keysA (setA m k v) = keysA m ++ [k] := by
  induction m with
  | nil => simp [setA, keysA]
  | cons e t ih =>
    rw [keysA_cons, List.mem_cons] at hk
    push_neg at hk
    have h : ¬ e.1 = k := fun hh => hk.1 hh.symm
    simp only [setA, if_neg h, keysA_cons, ih hk.2, List.cons_append]

theorem lookupA_setA_self {K V : Type} [DecidableEq K] (m : List (K × V))
    (k : K) (v : V) : lookupA (setA m k v) k = some v := by
  induction m with
  | nil => simp [setA, lookupA]
  | cons e t ih =>
    by_cases h : e.1 = k
    · simp [setA, h, lookupA_cons]
    · simp [setA, h, lookupA_cons, ih]

theorem lookupA_setA_ne {K V : Type} [DecidableEq K] (m : List (K × V))
    (k j : K) (v : V) (hne : j ≠ k) : lookupA (setA m k v) j = lookupA m j := by
  induction m with
  | nil => simp [setA, lookupA_cons, lookupA_nil, Ne.symm hne]
  | cons e t ih =>
    by_cases h : e.1 = k
    · simp [setA, h, lookupA_cons, Ne.symm hne]
    · simp [setA, h, lookupA_cons, ih]

theorem mem_keysA_iff_lookupA {K V : Type} [DecidableEq K] (m : List (K × V))
    (k : K) : k ∈ keysA m ↔ (lookupA m k).isSome := by
  induction m with
  | nil => simp [keysA_nil, lookupA_nil]
  | cons e t ih =>
    rw [keysA_cons, List.mem_cons, lookupA_cons]
    by_cases h : e.1 = k
    · simp [h]
    · simp only [if_neg h, ih]
      constructor
      · rintro (hk | hk)
        · exact absurd hk.symm h
        · exact hk
      · exact Or.inr

theorem nodup_keysA_setA {K V : Type} [DecidableEq K] (m : List (K × V))
    (k : K) (v : V) (h : (keysA m).Nodup) : (keysA (setA m k v)).Nodup := by
  by_cases hk : k ∈ keysA m
  · rw [keysA_setA_of_mem m k v hk]; exact h
  · rw [keysA_setA_of_not_mem m k v hk]
    simpa [List.nodup_append] using ⟨h, fun hkm => hk hkm⟩

theorem sumA_cons {K : Type} (e : K × ℚ) (t : List (K × ℚ)) :
    sumA (e :: t) = e.2 + sumA t := by simp [sumA]

theorem sumA_setA {K : Type} [DecidableEq K] (m : List (K × ℚ)) (k : K) (v : ℚ) :
    sumA (setA m k v) = sumA m - getDA m k 0 + v := by
  induction m with
  | nil => simp [setA, sumA, getDA, lookupA_nil]
  | cons e t ih =>
    by_cases h : e.1 = k
    · simp only [setA, if_pos h, sumA_cons, getDA, lookupA_cons, if_pos h,
        Option.getD_some]
      ring
    · simp only [setA, if_neg h, sumA_cons, getDA, lookupA_cons, if_neg h]
      rw [show (lookupA t k).getD 0 = getDA t k 0 from rfl, ih]
      ring

theorem sumA_addA {K : Type} [DecidableEq K] (m : List (K × ℚ)) (k : K) (d : ℚ) :
    sumA (addA m k d) = sumA m + d := by
  rw [addA, sumA_setA m k _]; ring

theorem keysA_addA_of_mem {K : Type} [DecidableEq K] (m : List (K × ℚ)) (k : K)
    (d : ℚ) (hk : k ∈ keysA m) : keysA (addA m k d) = keysA m :=
  keysA_setA_of_mem m k _ hk

theorem R3.toReal_pos_iff (x : R3) : 0 < x.toReal ↔ x.sgnz = 1 := by
  have h3 : (0 : ℝ) < Real.sqrt 3 := Real.sqrt_pos.mpr (by norm_num)
  have hsq : Real.sqrt 3 ^ 2 = 3 := Real.sq_sqrt (by norm_num)
  constructor
  · intro hpos
    by_contra hne
    rw [sgnz] at hne
    by_cases ha : 0 ≤ x.a
    · by_cases hb : 0 ≤ x.b
      · simp only [if_pos ha, if_pos hb] at hne
        by_cases hz : x.a = 0 ∧ x.b = 0
        · rw [toReal, hz.1, hz.2] at hpos; simp at hpos
        · simp [hz] at hne
      · simp only [if_pos ha, if_neg hb] at hne
        push_neg at hb
        -- a ≥ 0, b < 0: positivity forces a² > 3b²
        have hlt : -(x.b : ℝ) * Real.sqrt 3 < x.a := by
          have := hpos; rw [toReal] at this; linarith
        have hbpos : (0 : ℝ) < -(x.b : ℝ) := by
          have : (x.b : ℝ) < 0 := by exact_mod_cast hb
          linarith
        have hsq' : (-(x.b : ℝ) * Real.sqrt 3) ^ 2 < (x.a : ℝ) ^ 2 := by
          apply sq_lt_sq' _ hlt
          have : (0 : ℝ) < -(x.b : ℝ) * Real.sqrt 3 := mul_pos hbpos h3
          linarith
        rw [mul_pow, hsq] at hsq'
        have hq : 3 * x.b ^ 2 < x.a ^ 2 := by
          have : ((3 * x.b ^ 2 : ℚ) : ℝ) < ((x.a ^ 2 : ℚ) : ℝ) := by
            push_cast; nlinarith
          exact_mod_cast this
        simp [hq] at hne
    · push_neg at ha
      by_cases hb : x.b ≤ 0
      · -- a < 0, b ≤ 0: the value is negative
        exfalso
        have hb' : (x.b : ℝ) ≤ 0 := by exact_mod_cast hb
        have ha' : (x.a : ℝ) < 0 := by exact_mod_cast ha
        have : x.toReal < 0 := by
          rw [toReal]
          have : (x.b : ℝ) * Real.sqrt 3 ≤ 0 :=
            mul_nonpos_of_nonpos_of_nonneg hb' (le_of_lt h3)
          linarith
        linarith
      · simp only [if_neg (not_le.mpr ha), if_neg hb] at hne
        push_neg at hb
        -- a < 0, b > 0: positivity forces 3b² > a²
        have hlt : -(x.a : ℝ) < (x.b : ℝ) * Real.sqrt 3 := by
          have := hpos; rw [toReal] at this; linarith
        have hapos : (0 : ℝ) < -(x.a : ℝ) := by
          have : (x.a : ℝ) < 0 := by exact_mod_cast ha
          linarith
        have hsq' : (-(x.a : ℝ)) ^ 2 < ((x.b : ℝ) * Real.sqrt 3) ^ 2 := by
          apply sq_lt_sq' _ hlt
          linarith
        rw [mul_pow, hsq] at hsq'
        have hq : x.a ^ 2 < 3 * x.b ^ 2 := by
          have : ((x.a ^ 2 : ℚ) : ℝ) < ((3 * x.b ^ 2 : ℚ) : ℝ) := by
            push_cast; nlinarith
          exact_mod_cast this
        simp [hq] at hne
  · intro hone
    rw [sgnz] at hone
    by_cases ha : 0 ≤ x.a
    · by_cases hb : 0 ≤ x.b
      · simp only [if_pos ha, if_pos hb] at hone
        by_cases hz : x.a = 0 ∧ x.b = 0
        · simp [hz] at hone
        · have ha' : (0 : ℝ) ≤ (x.a : ℝ) := by exact_mod_cast ha
          have hb' : (0 : ℝ) ≤ (x.b : ℝ) := by exact_mod_cast hb
          rw [toReal]
          rcases lt_or_eq_of_le ha' with h | h
          · nlinarith
          · have hbne : x.b ≠ 0 := by
              intro hb0
              exact hz ⟨by exact_mod_cast h.symm, hb0⟩
            have : (0 : ℝ) < (x.b : ℝ) := by
              rcases lt_or_eq_of_le hb' with h2 | h2
              · exact h2
              · exact absurd (show x.b = 0 by exact_mod_cast h2.symm) hbne
            nlinarith
      · simp only [if_pos ha, if_neg hb] at hone
        push_neg at hb
        have hq : 3 * x.b ^ 2 < x.a ^ 2 := by
          by_contra hno
          rcases eq_or_lt_of_le (not_lt.mp hno) with h | h
          · simp [h.symm] at hone
          · simp [not_lt.mpr (le_of_lt h), ne_of_lt h] at hone
        have hb' : (x.b : ℝ) < 0 := by exact_mod_cast hb
        have ha' : (0 : ℝ) ≤ (x.a : ℝ) := by exact_mod_cast ha
        have hq' : 3 * (x.b : ℝ) ^ 2 < (x.a : ℝ) ^ 2 := by exact_mod_cast hq
        rw [toReal]
        nlinarith [sq_nonneg ((x.a : ℝ) + (x.b : ℝ) * Real.sqrt 3), h3, hsq,
          mul_pos (neg_pos.mpr hb') h3]
    · push_neg at ha
      by_cases hb : x.b ≤ 0
      · simp [not_le.mpr ha, hb] at hone
      · simp only [if_neg (not_le.mpr ha), if_neg hb] at hone
        push_neg at hb
        have hq : x.a ^ 2 < 3 * x.b ^ 2 := by
          by_contra hno
          rcases eq_or_lt_of_le (not_lt.mp hno) with h | h
          · simp [h] at hone
          · simp [not_lt.mpr (le_of_lt h), (ne_of_lt h).symm] at hone
        have hb' : (0 : ℝ) < (x.b : ℝ) := by exact_mod_cast hb
        have ha' : (x.a : ℝ) < 0 := by exact_mod_cast ha
        have hq' : (x.a : ℝ) ^ 2 < 3 * (x.b : ℝ) ^ 2 := by exact_mod_cast hq
        rw [toReal]
        nlinarith [mul_pos hb' h3, hsq]

/-! ## C2 — the instability boundary of the radius-1 hot-center board -/

/-- C2: on the radius-1 board with center value 100, ring values 0, base
conductivity 1 and no entities, one tick with `diffusionAlpha = 0.1` yields
exactly 40 at the center and exactly 10 on each of the six neighbors (total
100), and one tick with `diffusionAlpha = 0.9` yields a negative center
value (−440). -/
theorem C2_instability_boundary (rand : ℕ → ℚ) :
    lookupA (tickSimulation rand (hotCenterState (1/10))).nextState.E (0, 0, 0)
      = some 40 ∧
    lookupA (tickSimulation rand (hotCenterState (1/10))).nextState.E (1, -1, 0)
      = some 10 ∧
    lookupA (tickSimulation rand (hotCenterState (1/10))).nextState.E (1, 0, -1)
      = some 10 ∧
    lookupA (tickSimulation rand (hotCenterState (1/10))).nextState.E (0, 1, -1)
      = some 10 ∧
    lookupA (tickSimulation rand (hotCenterState (1/10))).nextState.E (-1, 1, 0)
      = some 10 ∧
    lookupA (tickSimulation rand (hotCenterState (1/10))).nextState.E (-1, 0, 1)
      = some 10 ∧
    lookupA (tickSimulation rand (hotCenterState (1/10))).nextState.E (0, -1, 1)
      = some 10 ∧
    sumA (tickSimulation rand (hotCenterState (1/10))).nextState.E = 100 ∧
    lookupA (tickSimulation rand (hotCenterState (9/10))).nextState.E (0, 0, 0)
      = some (-440) ∧
    ((-440 : ℚ) < 0) := by
  refine ⟨?_, ?_, ?_, ?_, ?_, ?_, ?_, ?_, ?_, by norm_num⟩ <;>
  · simp +decide [tickSimulation, tickColl, tickCleaned, tickGroups, tickE4,
      tickE3, tickRes2, tickRes1, tickDelta, tickInj, tickCond, tickE1,
      tickCapRes, tickLosRes, tickShieldKeys, probeOverheat, sinkOverheat,
      shieldOverheat, hotCenterState, emptyState, ring1, sourcesOf, sinksOf,
      shieldsOf, probesOf, overheatPass, overheatStep, blockKeysOf, losPass,
      losStep, capacitorPhase, capStep, condShieldStep, condSinkStep,
      snapSinkStep, injectStep, diffuseDirStep, resExchangeStep, applyDeltaStep,
      probeGroupStep, blockKeyStep, cleanupStep, valsStep, exdefStep, dumpStep,
      capDeltaStep, snapSinks, conductivityMap,
      injectSources, diffusionDeltas, diffuseCell, halfDirs, sinkKeysOf,
      resExchange, radiatorPhase, applyDeltas, probeGroupsOf, collectPhase,
      collectStep, cleanupPhase, capDeltas, accumCollected, perimeterOf,
      hexRing, hexRingSide, hexAdd, hexDir, hexScale, hexNeighbor,
      HEX_CUBE_DIRS, keysA, lookupA, setA, getDA, addA, insertA, sumA,
      List.foldl, List.find?]
    norm_num

/-! ## C5 — the contract of `hexCornerLOS` -/

/-- C5: for all cells `a`, `b` and every obstacle set, `hexCornerLOS`
returns the cube distance between `a` and `b` exactly when at least one of
the 36 corner(a)×corner(b) segments intersects no obstacle polygon (the
obstacle hexagons' corners inflated outward from their centers by 1.1,
see `inflatedCorners`), and returns `NaN` (here `none`) exactly when every
one of the 36 segments is blocked. -/
theorem C5_los_contract (a b : Coord) (blocked : Coord → Bool)
    (allHexes : List Coord) :
    (hexCornerLOS a b blocked allHexes = some (hexDistance a b) ↔
      ∃ p ∈ hexCorners a, ∃ q ∈ hexCorners b,
        ∀ poly ∈ (allHexes.filter (fun h => blocked h)).map inflatedCorners,
          segmentIntersectsPolygon p q poly = false) ∧
    (hexCornerLOS a b blocked allHexes = none ↔
      ¬ ∃ p ∈ hexCorners a, ∃ q ∈ hexCorners b,
        ∀ poly ∈ (allHexes.filter (fun h => blocked h)).map inflatedCorners,
          segmentIntersectsPolygon p q poly = false) := by
  have hiff : ((hexCorners a).any (fun p => (hexCorners b).any (fun q =>
      !((allHexes.filter (fun h => blocked h)).map inflatedCorners).any
        (fun poly => segmentIntersectsPolygon p q poly))) = true) ↔
      ∃ p ∈ hexCorners a, ∃ q ∈ hexCorners b,
        ∀ poly ∈ (allHexes.filter (fun h => blocked h)).map inflatedCorners,
          segmentIntersectsPolygon p q poly = false := by
    simp only [List.any_eq_true, Bool.not_eq_true']
    constructor
    · rintro ⟨p, hp, q, hq, hblk⟩
      refine ⟨p, hp, q, hq, fun poly hpoly => ?_⟩
      rw [List.any_eq_false] at hblk
      exact Bool.not_eq_true _ ▸ (Bool.eq_false_iff.mpr (hblk poly hpoly))
    · rintro ⟨p, hp, q, hq, hblk⟩
      refine ⟨p, hp, q, hq, ?_⟩
      rw [List.any_eq_false]
      intro poly hpoly
      simp [hblk poly hpoly]
  rw [hexCornerLOS]
  by_cases hc : (hexCorners a).any (fun p => (hexCorners b).any (fun q =>
      !((allHexes.filter (fun h => blocked h)).map inflatedCorners).any
        (fun poly => segmentIntersectsPolygon p q poly))) = true
  · rw [if_pos hc]
    refine ⟨iff_of_true rfl (hiff.mp hc), ?_, ?_⟩
    · intro h; exact absurd h (Option.some_ne_none _)
    · intro hnex; exact absurd (hiff.mp hc) hnex
  · rw [if_neg hc]
    refine ⟨⟨?_, ?_⟩, iff_of_true rfl (fun hex => hc (hiff.mpr hex))⟩
    · intro h; exact absurd h.symm (Option.some_ne_none _)
    · intro hex; exact absurd (hiff.mpr hex) hc

/-! ## C3 — determinism of the tick

The source draws `Math.random()` inside the overheat checks, so two
invocations of `tickSimulation` on equal states are two instantiations of
the oracle; they agree exactly when no draw can influence the result. -/

/-- An overheat pass is the identity when every alive entity of the pass is
at or below its tolerance (no `Math.random()` draw happens). -/
theorem overheatPass_id_of_cool (E0 : List (Coord × ℚ)) (rand : ℕ → ℚ)
    (tolDefault pFail : ℚ) (es : List Entity) (acc : OverheatAcc)
    (h : ∀ e ∈ es, e.destroyed = false →
      getDA E0 e.pos 0 ≤ e.heatTolerance.getD tolDefault) :
    overheatPass E0 rand tolDefault pFail es acc = acc := by
  induction es generalizing acc with
  | nil => rfl
  | cons e t ih =>
    have hstep : overheatStep E0 rand tolDefault pFail acc e = acc := by
      rw [overheatStep]
      by_cases hd : e.destroyed
      · rw [if_pos hd]
      · rw [if_neg hd]
        have hle := h e (List.mem_cons_self e t) (Bool.eq_false_iff.mpr hd)
        rw [if_neg (not_lt.mpr hle)]
    rw [overheatPass, List.foldl_cons, hstep]
    exact ih acc (fun e' he' => h e' (List.mem_cons_of_mem e he'))

/-- C3, counterexample: the claim "two invocations of `tickSimulation` on
equal input states produce equal next states" fails on a state holding one
alive shield above its tolerance — the draw `0` destroys it, the draw `1`
does not, and the two next states differ. -/
theorem C3_counterexample :
    (lookupA (tickSimulation (fun _ => 0) hotShieldState).nextState.entities
        (0, 0, 0)).map Entity.destroyed = some true ∧
    (lookupA (tickSimulation (fun _ => 1) hotShieldState).nextState.entities
        (0, 0, 0)).map Entity.destroyed = some false ∧
    (tickSimulation (fun _ => 0) hotShieldState).nextState ≠
      (tickSimulation (fun _ => 1) hotShieldState).nextState := by
  have h1 : (lookupA (tickSimulation (fun _ => 0) hotShieldState).nextState.entities
      (0, 0, 0)).map Entity.destroyed = some true := by
    simp +decide [tickSimulation, tickColl, tickCleaned, tickGroups, tickE4,
      tickE3, tickRes2, tickRes1, tickDelta, tickInj, tickCond, tickE1,
      tickCapRes, tickLosRes, tickShieldKeys, probeOverheat, sinkOverheat,
      shieldOverheat, hotShieldState, emptyState, sourcesOf, sinksOf,
      shieldsOf, probesOf, Entity.isSourceE, Entity.isSinkE, Entity.isShieldE,
      Entity.isProbeE, Entity.destroyed, overheatPass, overheatStep,
      SHIELD_FAILURE_PROBABILITY, SINK_FAILURE_PROBABILITY,
      PROBE_FAILURE_PROBABILITY, blockKeysOf, losPass, losStep,
      capacitorPhase, capStep, condShieldStep, condSinkStep,
      snapSinkStep, injectStep, diffuseDirStep, resExchangeStep, applyDeltaStep,
      probeGroupStep, blockKeyStep, cleanupStep, valsStep, exdefStep, dumpStep,
      capDeltaStep, snapSinks, conductivityMap, injectSources,
      diffusionDeltas, diffuseCell, halfDirs, sinkKeysOf, resExchange,
      radiatorPhase, applyDeltas, probeGroupsOf, collectPhase, collectStep,
      cleanupPhase, capDeltas, accumCollected, perimeterOf, hexRing,
      hexRingSide, hexAdd, hexDir, hexScale, hexNeighbor, HEX_CUBE_DIRS,
      keysA, lookupA, setA, getDA, addA, insertA, List.foldl, List.find?]
  have h2 : (lookupA (tickSimulation (fun _ => 1) hotShieldState).nextState.entities
      (0, 0, 0)).map Entity.destroyed = some false := by
    simp +decide [(by norm_num : ¬ ((1:ℚ) < 5/100)),
      tickSimulation, tickColl, tickCleaned, tickGroups, tickE4,
      tickE3, tickRes2, tickRes1, tickDelta, tickInj, tickCond, tickE1,
      tickCapRes, tickLosRes, tickShieldKeys, probeOverheat, sinkOverheat,
      shieldOverheat, hotShieldState, emptyState, sourcesOf, sinksOf,
      shieldsOf, probesOf, Entity.isSourceE, Entity.isSinkE, Entity.isShieldE,
      Entity.isProbeE, Entity.destroyed, overheatPass, overheatStep,
      SHIELD_FAILURE_PROBABILITY, SINK_FAILURE_PROBABILITY,
      PROBE_FAILURE_PROBABILITY, blockKeysOf, losPass, losStep,
      capacitorPhase, capStep, condShieldStep, condSinkStep,
      snapSinkStep, injectStep, diffuseDirStep, resExchangeStep, applyDeltaStep,
      probeGroupStep, blockKeyStep, cleanupStep, valsStep, exdefStep, dumpStep,
      capDeltaStep, snapSinks, conductivityMap, injectSources,
      diffusionDeltas, diffuseCell, halfDirs, sinkKeysOf, resExchange,
      radiatorPhase, applyDeltas, probeGroupsOf, collectPhase, collectStep,
      cleanupPhase, capDeltas, accumCollected, perimeterOf, hexRing,
      hexRingSide, hexAdd, hexDir, hexScale, hexNeighbor, HEX_CUBE_DIRS,
      keysA, lookupA, setA, getDA, addA, insertA, List.foldl, List.find?]
  refine ⟨h1, h2, fun heq => ?_⟩
  rw [heq] at h1
  rw [h1] at h2
  simp at h2

/-- C3, amended: the tick is deterministic given the random draws, and on
every state in which no alive shield, sink, or probe sits strictly above
its heat tolerance, no draw occurs and the next state is independent of the
`Math.random()` oracle: any two invocations agree. -/
theorem C3_amended_deterministic_when_cool (r1 r2 : ℕ → ℚ)
    (st : SimulationState)
    (hsh : ∀ e ∈ shieldsOf st.entities, e.destroyed = false →
      getDA st.E e.pos 0 ≤ e.heatTolerance.getD 2000)
    (hsi : ∀ e ∈ sinksOf st.entities, e.destroyed = false →
      getDA st.E e.pos 0 ≤ e.heatTolerance.getD 1400)
    (hpr : ∀ e ∈ probesOf st.entities, e.destroyed = false →
      getDA st.E e.pos 0 ≤ e.heatTolerance.getD 1800) :
    tickSimulation r1 st = tickSimulation r2 st := by
  have hShO : ∀ rand, shieldOverheat rand st = ⟨st.entities, 0, []⟩ := fun rand =>
    overheatPass_id_of_cool _ _ _ _ _ _ hsh
  have hSiO : ∀ rand, sinkOverheat rand st = ⟨st.entities, 0, []⟩ := by
    intro rand
    rw [sinkOverheat, hShO rand]
    exact overheatPass_id_of_cool _ _ _ _ _ _ hsi
  have hPrO : ∀ rand, probeOverheat rand st = ⟨st.entities, 0, []⟩ := by
    intro rand
    rw [probeOverheat, hSiO rand]
    exact overheatPass_id_of_cool _ _ _ _ _ _ hpr
  have hlos : ∀ rand, tickLosRes rand st =
      losPass (sourcesOf st.entities)
        (blockKeysOf (shieldsOf st.entities) [] st.disabledShieldGroups)
        (probesOf st.entities) st.entities := by
    intro rand
    rw [tickLosRes, tickShieldKeys, hShO rand, hPrO rand]
  rw [tickSimulation, tickSimulation, tickColl, tickColl, tickGroups,
    tickGroups, tickCleaned, tickCleaned, tickColl, tickColl, tickGroups,
    tickGroups, hlos r1, hlos r2]

/-- Witness for the amended C3 at a concrete cool state. -/
theorem C3_amended_witness :
    tickSimulation (fun _ => 0) (hotCenterState (1/10)) =
      tickSimulation (fun _ => 1) (hotCenterState (1/10)) :=
  C3_amended_deterministic_when_cool _ _ _
    (by simp [shieldsOf, hotCenterState, emptyState])
    (by simp [sinksOf, hotCenterState, emptyState])
    (by simp [probesOf, hotCenterState, emptyState])

/-! ## C7 — the conductivity map -/

/-- Setting a constant value over a key list: the keys of the list (and the
keys already carrying the constant) read back the constant. -/
theorem lookupA_foldl_setA_const {K V : Type} [DecidableEq K] (L : List K)
    (c : V) (m : List (K × V)) (k : K)
    (h : lookupA m k = some c ∨ k ∈ L) :
    lookupA (L.foldl (fun m k => setA m k c) m) k = some c := by
  induction L generalizing m with
  | nil =>
    rcases h with h | h
    · exact h
    · simp at h
  | cons a t ih =>
    rw [List.foldl_cons]
    rcases h with h | h
    · refine ih _ (Or.inl ?_)
      by_cases hak : k = a
      · rw [hak]; exact lookupA_setA_self m a c
      · rw [lookupA_setA_ne _ _ _ _ hak]; exact h
    · rcases List.mem_cons.mp h with h | h
      · exact ih _ (Or.inl (h ▸ lookupA_setA_self m a c))
      · exact ih _ (Or.inr h)

/-- The shield pass of the conductivity derivation tracks a running
`foldl min` over the applicable shield clamps at each in-domain cell. -/
theorem lookupA_condShieldsFold (E : List (Coord × ℚ)) (disabled : List ℤ)
    (baseK : ℚ) (shields : List Entity) (k : Coord)
    (hkE : (lookupA E k).isSome) (m : List (Coord × ℚ)) (v : ℚ)
    (hm : lookupA m k = some v) :
    lookupA (shields.foldl (condShieldStep E disabled baseK) m) k =
    some (List.foldl min v ((shields.filter (fun sh =>
      !(match sh.groupId with
        | some g => decide (g ∈ disabled)
        | none => false) && sh.pos = k)).map
          (fun sh => clamp01Positive sh.conductivity))) := by
  induction shields generalizing m v with
  | nil => simpa using hm
  | cons sh t ih =>
    rw [List.foldl_cons, List.filter_cons]
    by_cases hdis : (match sh.groupId with
      | some g => decide (g ∈ disabled)
      | none => false) = true
    · rw [show condShieldStep E disabled baseK m sh = m by
        rw [condShieldStep]; simp only [hdis, if_true]]
      rw [if_neg (by simp [hdis])]
      exact ih m v hm
    · rw [Bool.not_eq_true] at hdis
      by_cases hpos : sh.pos = k
      · have hnn : (lookupA E k).isNone = false := by
          rcases Option.isSome_iff_exists.mp hkE with ⟨v0, hv0⟩
          rw [hv0]
          rfl
        have hget : getDA m k baseK = v := by
          rw [getDA, hm, Option.getD_some]
        rw [show condShieldStep E disabled baseK m sh
            = setA m k (min v (clamp01Positive sh.conductivity)) by
          rw [condShieldStep]
          simp only [hdis, hnn, Bool.false_eq_true, if_false, hget, hpos]]
        rw [if_pos (by simp [hdis, hpos]), List.map_cons, List.foldl_cons]
        exact ih _ _ (lookupA_setA_self m k _)
      · rw [if_neg (by simp [hpos])]
        by_cases hE : (lookupA E sh.pos).isNone
        · rw [show condShieldStep E disabled baseK m sh = m by
            rw [condShieldStep]
            simp only [hdis, hE, Bool.false_eq_true, if_false, if_true]]
          exact ih m v hm
        · rw [show condShieldStep E disabled baseK m sh
              = setA m sh.pos (min (getDA m sh.pos baseK)
                  (clamp01Positive sh.conductivity)) by
            rw [condShieldStep]
            simp only [hdis, hE, Bool.false_eq_true, if_false]]
          exact ih _ v (by rw [lookupA_setA_ne _ _ _ _ (Ne.symm hpos)]; exact hm)

/-- The sink pass of the conductivity derivation: same tracking, no
disabled-group filter. -/
theorem lookupA_condSinksFold (E : List (Coord × ℚ)) (baseK : ℚ)
    (sinks : List Entity) (k : Coord) (hkE : (lookupA E k).isSome)
    (m : List (Coord × ℚ)) (v : ℚ) (hm : lookupA m k = some v) :
    lookupA (sinks.foldl (condSinkStep E baseK) m) k =
    some (List.foldl min v ((sinks.filter (fun si => si.pos = k)).map
      (fun si => clamp01Positive si.conductivity))) := by
  induction sinks generalizing m v with
  | nil => simpa using hm
  | cons si t ih =>
    rw [List.foldl_cons, List.filter_cons]
    by_cases hpos : si.pos = k
    · have hnn : (lookupA E k).isNone = false := by
        rcases Option.isSome_iff_exists.mp hkE with ⟨v0, hv0⟩
        rw [hv0]
        rfl
      have hget : getDA m k baseK = v := by
        rw [getDA, hm, Option.getD_some]
      rw [show condSinkStep E baseK m si
          = setA m k (min v (clamp01Positive si.conductivity)) by
        rw [condSinkStep]
        simp only [hnn, Bool.false_eq_true, if_false, hget, hpos]]
      rw [if_pos (by simp [hpos]), List.map_cons, List.foldl_cons]
      exact ih _ _ (lookupA_setA_self m k _)
    · rw [if_neg (by simpa using hpos)]
      by_cases hE : (lookupA E si.pos).isNone
      · rw [show condSinkStep E baseK m si = m by
          rw [condSinkStep]
          simp only [hE, if_true]]
        exact ih m v hm
      · rw [show condSinkStep E baseK m si
            = setA m si.pos (min (getDA m si.pos baseK)
                (clamp01Positive si.conductivity)) by
          rw [condSinkStep]
          simp only [hE, Bool.false_eq_true, if_false]]
        exact ih _ v (by rw [lookupA_setA_ne _ _ _ _ (Ne.symm hpos)]; exact hm)

/-- C7, counterexample: the claim says only *non-destroyed* shields clamp
the conductivity, so on a board whose sole shield is destroyed (and not
disabled) the cell should conduct at `baseConductivity = 1`; the
conductivity map the diffusion pass uses gives `1/2`, the destroyed
shield's clamp. -/
theorem C7_counterexample :
    destroyedShieldState.baseConductivity = 1 ∧
    (∀ e ∈ shieldsOf destroyedShieldState.entities, e.destroyed = true) ∧
    destroyedShieldState.disabledShieldGroups = [] ∧
    lookupA (tickCond destroyedShieldState) (0, 0, 0) = some (1/2) ∧
    ((1/2 : ℚ) ≠ 1) := by
  refine ⟨rfl, ?_, rfl, ?_, by norm_num⟩
  · intro e he
    simp [shieldsOf, destroyedShieldState, emptyState, Entity.isShieldE] at he
    rw [he]
  · simp +decide [tickCond, tickE1, destroyedShieldState, emptyState,
      sourcesOf, sinksOf, shieldsOf, probesOf, Entity.isSourceE,
      Entity.isSinkE, Entity.isShieldE, Entity.isProbeE, Entity.conductivity,
      snapSinks, snapSinkStep, conductivityMap, condShieldStep,
      condSinkStep, clamp01Positive, keysA, lookupA, setA,
      getDA, insertA, List.foldl, List.find?]
    norm_num [min_def]

/-- C7, amended: the conductivity map starts at `baseConductivity` on every
in-domain cell and is min-clamped by every shield whose group is not
disabled — regardless of its `destroyed` flag — and by every sink, i.e. it
computes `foldl min baseConductivity` over the applicable clamps
(`specConductivityClampsAt`). -/
theorem C7_amended_conductivity (E : List (Coord × ℚ))
    (shields sinks : List Entity) (disabled : List ℤ) (baseK : ℚ) (k : Coord)
    (hk : k ∈ keysA E) :
    lookupA (conductivityMap E shields sinks disabled baseK) k =
      some (List.foldl min baseK
        (specConductivityClampsAt shields sinks disabled k)) := by
  have hkE : (lookupA E k).isSome := (mem_keysA_iff_lookupA E k).mp hk
  have h0 : lookupA ((keysA E).foldl (fun m k => setA m k baseK) []) k
      = some baseK :=
    lookupA_foldl_setA_const _ _ _ _ (Or.inr hk)
  have h1 := lookupA_condShieldsFold E disabled baseK shields k hkE _ baseK h0
  have h2 := lookupA_condSinksFold E baseK sinks k hkE _ _ h1
  rw [conductivityMap]
  rw [specConductivityClampsAt, List.foldl_append]
  exact h2

/-- Witness for the amended C7: a destroyed half-conductivity shield and a
sink with conductivity 2 at the origin of a one-cell board. -/
theorem C7_amended_witness :
    lookupA (conductivityMap [((0, 0, 0), (5 : ℚ))]
        [{ pos := (0, 0, 0), destroyed := true, kind := .shield (1/2) none }]
        [{ pos := (0, 0, 0), groupId := some 1, kind := .sink 0 2 }] [] 1)
        (0, 0, 0) =
      some (List.foldl min 1
        (specConductivityClampsAt
          [{ pos := (0, 0, 0), destroyed := true, kind := .shield (1/2) none }]
          [{ pos := (0, 0, 0), groupId := some 1, kind := .sink 0 2 }] []
          (0, 0, 0))) :=
  C7_amended_conductivity _ _ _ _ _ _ (by simp [keysA])

/-! ## C9 — the shield-group toggle of `ThermoGame` -/

/-- A successful lookup names an entry of the list. -/
theorem lookupA_mem {K V : Type} [DecidableEq K] (m : List (K × V)) (k : K)
    (v : V) (h : lookupA m k = some v) : (k, v) ∈ m := by
  induction m with
  | nil => simp [lookupA] at h
  | cons e t ih =>
    rw [lookupA_cons] at h
    by_cases he : e.1 = k
    · rw [if_pos he] at h
      exact List.mem_cons.mpr
        (Or.inl (Prod.ext he.symm (Option.some_inj.mp h).symm))
    · rw [if_neg he] at h
      exact List.mem_cons_of_mem e (ih h)

/-- Lookup through a key-preserving entry map. -/
theorem lookupA_map_keyfix {K V W : Type} [DecidableEq K] (m : List (K × V))
    (f : K × V → K × W) (hf : ∀ e, (f e).1 = e.1) (k : K) :
    lookupA (m.map f) k = (m.find? (fun e => e.1 = k)).map (fun e => (f e).2) := by
  induction m with
  | nil => simp [lookupA]
  | cons e t ih =>
    rw [List.map_cons, lookupA_cons, List.find?]
    by_cases he : e.1 = k
    · rw [hf e, if_pos he]
      simp [he]
    · rw [hf e, if_neg he, ih]
      simp [he]

/-- Key-preserving entry maps preserve the key list. -/
theorem keysA_map_keyfix {K V W : Type} (m : List (K × V)) (f : K × V → K × W)
    (hf : ∀ e, (f e).1 = e.1) : keysA (m.map f) = keysA m := by
  induction m with
  | nil => rfl
  | cons e t ih => simp only [List.map_cons, keysA_cons, hf e, ih]

/-- A first match survives appending. -/
theorem lookupA_append_left {K V : Type} [DecidableEq K] (l1 l2 : List (K × V))
    (k : K) (v : V) (h : lookupA l1 k = some v) :
    lookupA (l1 ++ l2) k = some v := by
  induction l1 with
  | nil => simp [lookupA] at h
  | cons e t ih =>
    rw [lookupA_cons] at h
    rw [List.cons_append, lookupA_cons]
    by_cases he : e.1 = k
    · rw [if_pos he] at h ⊢; exact h
    · rw [if_neg he] at h ⊢; exact ih h

/-- Lookup skips a prefix that misses the key. -/
theorem lookupA_append_right {K V : Type} [DecidableEq K]
    (l1 l2 : List (K × V)) (k : K) (h : lookupA l1 k = none) :
    lookupA (l1 ++ l2) k = lookupA l2 k := by
  induction l1 with
  | nil => rfl
  | cons e t ih =>
    rw [lookupA_cons] at h
    by_cases he : e.1 = k
    · rw [if_pos he] at h; exact absurd h (by simp)
    · rw [if_neg he] at h
      rw [List.cons_append, lookupA_cons, if_neg he]
      exact ih h

/-- The field part of one enabling step leaves every other key alone. -/
theorem enableStep_fst_ne (gid : ℤ)
    (acc : List (Coord × ℚ) × List (Coord × GEntity)) (e : Coord × GEntity)
    (k : Coord) (hk : e.1 ≠ k) :
    lookupA (enableStep gid acc e).1 k = lookupA acc.1 k := by
  rcases e with ⟨ek, ent⟩
  cases ent with
  | gshield c g st =>
    cases st with
    | none => rfl
    | some t0 =>
      simp only [enableStep]
      by_cases hg : g = gid
      · rw [if_pos hg]
        exact lookupA_setA_ne _ _ _ _ (Ne.symm hk)
      · rw [if_neg hg]
  | gsource p a m g0 => rfl
  | gsink a b c d e0 => rfl
  | gprobe g0 => rfl

/-- The entity part of one enabling step appends exactly one entry, keyed by
the processed entity's key. -/
theorem enableStep_snd_append (gid : ℤ)
    (acc : List (Coord × ℚ) × List (Coord × GEntity)) (e : Coord × GEntity) :
    ∃ w, (enableStep gid acc e).2 = acc.2 ++ [(e.1, w)] := by
  rcases e with ⟨ek, ent⟩
  cases ent with
  | gshield c g st =>
    cases st with
    | none => exact ⟨_, rfl⟩
    | some t0 =>
      simp only [enableStep]
      by_cases hg : g = gid
      · rw [if_pos hg]; exact ⟨_, rfl⟩
      · rw [if_neg hg]; exact ⟨_, rfl⟩
  | gsource p a m g0 => exact ⟨_, rfl⟩
  | gsink a b c d e0 => exact ⟨_, rfl⟩
  | gprobe g0 => exact ⟨_, rfl⟩

/-- The enabling loop does not touch the field at keys no remaining entity
occupies. -/
theorem enableFold_E_frozen (gid : ℤ) (L : List (Coord × GEntity))
    (acc : List (Coord × ℚ) × List (Coord × GEntity)) (k : Coord)
    (hk : k ∉ keysA L) :
    lookupA (L.foldl (enableStep gid) acc).1 k = lookupA acc.1 k := by
  induction L generalizing acc with
  | nil => rfl
  | cons e t ih =>
    rw [keysA_cons, List.mem_cons] at hk
    push_neg at hk
    rw [List.foldl_cons, ih _ hk.2]
    exact enableStep_fst_ne gid acc e k (fun hh => hk.1 hh.symm)

/-- The enabling loop writes each member shield's `savedTemp` into its
field cell. -/
theorem enableFold_E_restores (gid : ℤ) (L : List (Coord × GEntity))
    (k : Coord) (c s : ℚ)
    (hnd : (keysA L).Nodup)
    (hmem : (k, GEntity.gshield c gid (some s)) ∈ L)
    (acc : List (Coord × ℚ) × List (Coord × GEntity)) :
    lookupA (L.foldl (enableStep gid) acc).1 k = some s := by
  induction L generalizing acc with
  | nil => simp at hmem
  | cons e t ih =>
    rw [keysA_cons] at hnd
    rcases List.mem_cons.mp hmem with he | he
    · have he1 : e.1 = k := by rw [← he]
      have hkt : k ∉ keysA t := by
        intro hk
        exact (List.nodup_cons.mp hnd).1 (by rw [he1]; exact hk)
      rw [List.foldl_cons, enableFold_E_frozen gid t _ k hkt, ← he]
      simp only [enableStep, eq_self_iff_true, if_true]
      exact lookupA_setA_self _ _ _
    · rw [List.foldl_cons]
      exact ih (List.nodup_cons.mp hnd).2 he _

/-- An established first match in the rebuilt entity list survives the rest
of the enabling loop. -/
theorem enableFold_ents_keeps (gid : ℤ) (L : List (Coord × GEntity))
    (acc : List (Coord × ℚ) × List (Coord × GEntity)) (k : Coord)
    (v : GEntity) (h : lookupA acc.2 k = some v) :
    lookupA (L.foldl (enableStep gid) acc).2 k = some v := by
  induction L generalizing acc with
  | nil => exact h
  | cons e t ih =>
    rw [List.foldl_cons]
    rcases enableStep_snd_append gid acc e with ⟨w, hw⟩
    exact ih _ (by rw [hw]; exact lookupA_append_left _ _ _ _ h)

/-- The enabling loop clears the bookkeeping of each member shield in the
entity map it rebuilds. -/
theorem enableFold_ents_clears (gid : ℤ) (L : List (Coord × GEntity))
    (k : Coord) (c s : ℚ)
    (hnd : (keysA L).Nodup)
    (hmem : (k, GEntity.gshield c gid (some s)) ∈ L)
    (acc : List (Coord × ℚ) × List (Coord × GEntity))
    (hacc : lookupA acc.2 k = none) :
    lookupA (L.foldl (enableStep gid) acc).2 k = some (.gshield c gid none) := by
  induction L generalizing acc with
  | nil => simp at hmem
  | cons e t ih =>
    rw [keysA_cons] at hnd
    rcases List.mem_cons.mp hmem with he | he
    · rw [List.foldl_cons]
      refine enableFold_ents_keeps gid t _ k _ ?_
      rw [← he]
      simp only [enableStep, eq_self_iff_true, if_true]
      rw [lookupA_append_right _ _ _ hacc, lookupA_cons]
      simp
    · have hkt : k ∈ keysA t := List.mem_map.mpr ⟨_, he, rfl⟩
      have hek : e.1 ≠ k := fun hh => (List.nodup_cons.mp hnd).1 (hh ▸ hkt)
      rw [List.foldl_cons]
      refine ih (List.nodup_cons.mp hnd).2 he _ ?_
      rcases enableStep_snd_append gid acc e with ⟨w, hw⟩
      rw [hw, lookupA_append_right _ _ _ hacc, lookupA_cons, if_neg hek]
      rfl

/-- C9, counterexample: the claim says disabling a shield group zeros each
member's field cell; `ThermoGame.toggleShieldGroup` stores the value into
`savedTemp` but deliberately leaves the cell unchanged — on `toggleGame`
the origin cell still reads 100 (not 0) after disabling group 2. -/
theorem C9_counterexample :
    (toggleShieldGroup toggleGame 2).disabledShieldGroups = [2] ∧
    lookupA (toggleShieldGroup toggleGame 2).entities (0, 0, 0)
      = some (.gshield (1/10) 2 (some 100)) ∧
    lookupA (toggleShieldGroup toggleGame 2).E (0, 0, 0) = some 100 ∧
    ((100 : ℚ) ≠ 0) := by
  refine ⟨?_, ?_, ?_, by norm_num⟩ <;>
    simp +decide [toggleShieldGroup, toggleGame, disableEntity, insertA,
      getDA, lookupA, setA, List.find?]

/-- C9, amended: disabling stores each member shield's current field value
(0 if the cell is absent) into `savedTemp` and leaves the field cell
unchanged; re-enabling writes the stored value back (overwriting whatever
the field accrued while disabled) and clears `savedTemp`; hence a
disable/drift/enable round trip returns the shield cell to its pre-disable
value. -/
theorem C9_amended_toggle_roundtrip (g : GameState) (gid : ℤ) (k : Coord)
    (c : ℚ) (st0 : Option ℚ) (E1 : List (Coord × ℚ))
    (hnd : (keysA g.entities).Nodup)
    (hgid : gid ∉ g.disabledShieldGroups)
    (hmem : lookupA g.entities k = some (GEntity.gshield c gid st0)) :
    (toggleShieldGroup g gid).E = g.E ∧
    lookupA (toggleShieldGroup g gid).entities k
      = some (.gshield c gid (some (getDA g.E k 0))) ∧
    gid ∈ (toggleShieldGroup g gid).disabledShieldGroups ∧
    lookupA (toggleShieldGroup
        { E := E1, entities := (toggleShieldGroup g gid).entities,
          disabledShieldGroups := (toggleShieldGroup g gid).disabledShieldGroups }
        gid).E k = some (getDA g.E k 0) ∧
    lookupA (toggleShieldGroup
        { E := E1, entities := (toggleShieldGroup g gid).entities,
          disabledShieldGroups := (toggleShieldGroup g gid).disabledShieldGroups }
        gid).entities k = some (.gshield c gid none) ∧
    gid ∉ (toggleShieldGroup
        { E := E1, entities := (toggleShieldGroup g gid).entities,
          disabledShieldGroups := (toggleShieldGroup g gid).disabledShieldGroups }
        gid).disabledShieldGroups := by
  have htog : toggleShieldGroup g gid =
      { E := g.E
        entities := g.entities.map (disableEntity g.E gid)
        disabledShieldGroups := insertA g.disabledShieldGroups gid } := by
    rw [toggleShieldGroup, if_neg hgid]
  have hfind : g.entities.find? (fun e => e.1 = k)
      = some (k, GEntity.gshield c gid st0) := by
    rw [lookupA] at hmem
    rcases Option.map_eq_some'.mp hmem with ⟨e, he, hev⟩
    have hp := List.find?_some he
    have hek : e.1 = k := of_decide_eq_true hp
    rcases e with ⟨ek, ev⟩
    rw [he]
    simp only at hek hev
    rw [hek, hev]
  have hents : lookupA (toggleShieldGroup g gid).entities k
      = some (.gshield c gid (some (getDA g.E k 0))) := by
    rw [htog]
    simp only
    rw [lookupA_map_keyfix _ _ (fun e => by
      rcases e with ⟨ek, ent⟩
      cases ent with
      | gshield c0 g0 s0 =>
        simp only [disableEntity]
        by_cases hg : g0 = gid
        · rw [if_pos hg]
        · rw [if_neg hg]
      | gsource p a m g0 => rfl
      | gsink a b c d e0 => rfl
      | gprobe g0 => rfl), hfind]
    simp only [Option.map_some', disableEntity, eq_self_iff_true, if_true]
  have hdis1 : gid ∈ (toggleShieldGroup g gid).disabledShieldGroups := by
    rw [htog]
    simp only [insertA]
    by_cases hg : gid ∈ g.disabledShieldGroups
    · rw [if_pos hg]; exact hg
    · rw [if_neg hg]; simp
  have hnd1 : (keysA (toggleShieldGroup g gid).entities).Nodup := by
    rw [htog]
    simp only
    rw [keysA_map_keyfix _ _ (fun e => by
      rcases e with ⟨ek, ent⟩
      cases ent with
      | gshield c0 g0 s0 =>
        simp only [disableEntity]
        by_cases hg : g0 = gid
        · rw [if_pos hg]
        · rw [if_neg hg]
      | gsource p a m g0 => rfl
      | gsink a b c d e0 => rfl
      | gprobe g0 => rfl)]
    exact hnd
  have hmem1 : (k, GEntity.gshield c gid (some (getDA g.E k 0)))
      ∈ (toggleShieldGroup g gid).entities :=
    lookupA_mem _ _ _ hents
  have htog2 : toggleShieldGroup
      { E := E1, entities := (toggleShieldGroup g gid).entities,
        disabledShieldGroups := (toggleShieldGroup g gid).disabledShieldGroups }
      gid =
      { E := ((toggleShieldGroup g gid).entities.foldl (enableStep gid)
          (E1, [])).1
        entities := ((toggleShieldGroup g gid).entities.foldl (enableStep gid)
          (E1, [])).2
        disabledShieldGroups :=
          (toggleShieldGroup g gid).disabledShieldGroups.filter
            (fun x => x ≠ gid) } := by
    rw [toggleShieldGroup, if_pos hdis1]
  refine ⟨by rw [htog], hents, hdis1, ?_, ?_, ?_⟩
  · rw [htog2]
    exact enableFold_E_restores gid _ k c _ hnd1 hmem1 _
  · rw [htog2]
    exact enableFold_ents_clears gid _ k c _ hnd1 hmem1 _ rfl
  · rw [htog2]
    simp only [List.mem_filter]
    rintro ⟨-, hcon⟩
    simp at hcon

/-- Witness for the amended C9 on the concrete `toggleGame`, with the field
drifting to 5 while the group is disabled. -/
theorem C9_amended_witness :
    (toggleShieldGroup toggleGame 2).E = toggleGame.E ∧
    lookupA (toggleShieldGroup toggleGame 2).entities (0, 0, 0)
      = some (.gshield (1/10) 2 (some (getDA toggleGame.E (0, 0, 0) 0))) ∧
    (2 : ℤ) ∈ (toggleShieldGroup toggleGame 2).disabledShieldGroups ∧
    lookupA (toggleShieldGroup
        { E := [((0, 0, 0), (5 : ℚ))],
          entities := (toggleShieldGroup toggleGame 2).entities,
          disabledShieldGroups :=
            (toggleShieldGroup toggleGame 2).disabledShieldGroups } 2).E
        (0, 0, 0) = some (getDA toggleGame.E (0, 0, 0) 0) ∧
    lookupA (toggleShieldGroup
        { E := [((0, 0, 0), (5 : ℚ))],
          entities := (toggleShieldGroup toggleGame 2).entities,
          disabledShieldGroups :=
            (toggleShieldGroup toggleGame 2).disabledShieldGroups } 2).entities
        (0, 0, 0) = some (.gshield (1/10) 2 none) ∧
    (2 : ℤ) ∉ (toggleShieldGroup
        { E := [((0, 0, 0), (5 : ℚ))],
          entities := (toggleShieldGroup toggleGame 2).entities,
          disabledShieldGroups :=
            (toggleShieldGroup toggleGame 2).disabledShieldGroups } 2).disabledShieldGroups :=
  C9_amended_toggle_roundtrip toggleGame 2 (0, 0, 0) (1/10) none
    [((0, 0, 0), (5 : ℚ))] (by decide) (by decide) (by simp [toggleGame, lookupA, List.find?])

/-! ## C4 — LOS probe destruction -/

/-- One LOS step touches the entity map only at its own probe's key. -/
theorem losStep_fst_ne (sources : List Entity) (shieldKeys : List Coord)
    (acc : List (Coord × Entity) × List Coord) (q : Entity) (k : Coord)
    (hk : q.pos ≠ k) :
    lookupA (losStep sources shieldKeys acc q).1 k = lookupA acc.1 k := by
  simp only [losStep]
  split_ifs with h1 h2 h3
  · rfl
  · rfl
  · exact lookupA_setA_ne _ _ _ _ (Ne.symm hk)
  · rfl

/-- The LOS pass leaves the entity map alone at keys of no processed
probe. -/
theorem losFold_frozen (sources : List Entity) (shieldKeys : List Coord)
    (probes : List Entity) (acc : List (Coord × Entity) × List Coord)
    (k : Coord) (hk : ∀ q ∈ probes, q.pos ≠ k) :
    lookupA (probes.foldl (losStep sources shieldKeys) acc).1 k
      = lookupA acc.1 k := by
  induction probes generalizing acc with
  | nil => rfl
  | cons q t ih =>
    rw [List.foldl_cons, ih _ (fun q' hq' => hk q' (List.mem_cons_of_mem q hq'))]
    exact losStep_fst_ne sources shieldKeys acc q k (hk q (List.mem_cons_self q t))

/-- What the LOS pass leaves at a probe's key: unchanged if the probe was
already destroyed (in the current next-entity map or by its own flag),
`destroyed := true` if some active source has line of sight, unchanged
otherwise. -/
theorem losFold_lookup (sources : List Entity) (shieldKeys : List Coord)
    (probes : List Entity) (p : Entity) (hp : p ∈ probes)
    (hnd : (probes.map (fun q => q.pos)).Nodup)
    (acc : List (Coord × Entity) × List Coord) :
    lookupA (probes.foldl (losStep sources shieldKeys) acc).1 p.pos =
      if ((lookupA acc.1 p.pos).map Entity.destroyed).getD false then
        lookupA acc.1 p.pos
      else if p.destroyed then lookupA acc.1 p.pos
      else if sources.any (fun s => s.isActive &&
          (hexCornerLOS p.pos s.pos (fun h => decide (h ∈ shieldKeys))
            shieldKeys).isSome) then
        some { p with destroyed := true }
      else lookupA acc.1 p.pos := by
  induction probes generalizing acc with
  | nil => simp at hp
  | cons q t ih =>
    rw [List.map_cons] at hnd
    rcases List.mem_cons.mp hp with hpq | hpt
    · have hkt : ∀ q' ∈ t, q'.pos ≠ p.pos := by
        intro q' hq' hcon
        exact (List.nodup_cons.mp hnd).1
          (List.mem_map.mpr ⟨q', hq', by rw [hcon, hpq]⟩)
      rw [List.foldl_cons, losFold_frozen sources shieldKeys t _ p.pos hkt,
        ← hpq]
      simp only [losStep]
      have hmatch : (match lookupA acc.1 p.pos with
          | some e => e.destroyed
          | none => false) =
          ((lookupA acc.1 p.pos).map Entity.destroyed).getD false := by
        cases lookupA acc.1 p.pos with
        | none => rfl
        | some e => rfl
      rw [hmatch]
      split_ifs with h1 h2 h3
      · rfl
      · rfl
      · exact lookupA_setA_self _ _ _
      · rfl
    · have hqp : q.pos ≠ p.pos := by
        intro hcon
        exact (List.nodup_cons.mp hnd).1
          (by rw [hcon]; exact List.mem_map.mpr ⟨p, hpt, rfl⟩)
      rw [List.foldl_cons, ih hpt (List.nodup_cons.mp hnd).2,
        losStep_fst_ne sources shieldKeys acc q p.pos hqp]

/-- C4, counterexample: the claim requires an active **non-destroyed**
source for LOS destruction, but the code never consults the source's
`destroyed` flag — on `destroyedSourceState`, whose only source is
destroyed (yet `active`), the probe in clear sight is still destroyed by
the tick. -/
theorem C4_counterexample :
    (∀ s ∈ sourcesOf destroyedSourceState.entities, s.destroyed = true) ∧
    (lookupA (tickSimulation (fun _ => 1) destroyedSourceState).nextState.entities
        (0, 0, 0)).map Entity.destroyed = some true := by
  constructor
  · intro s hs
    simp [sourcesOf, destroyedSourceState, emptyState, Entity.isSourceE] at hs
    rw [hs]
  · simp +decide [tickSimulation, tickColl, tickCleaned, tickGroups, tickE4,
      tickE3, tickRes2, tickRes1, tickDelta, tickInj, tickCond, tickE1,
      tickCapRes, tickLosRes, tickShieldKeys, probeOverheat, sinkOverheat,
      shieldOverheat, destroyedSourceState, emptyState, sourcesOf, sinksOf,
      shieldsOf, probesOf, Entity.isSourceE, Entity.isSinkE, Entity.isShieldE,
      Entity.isProbeE, Entity.isActive, Entity.destroyed, overheatPass,
      overheatStep, blockKeysOf, blockKeyStep, losPass, losStep,
      hexCornerLOS, hexCorners, cornerOffsets, hexToPixel, inflatedCorners,
      hexDistance, hexLength, hexSub,
      capacitorPhase, capStep, condShieldStep, condSinkStep,
      snapSinkStep, injectStep, diffuseDirStep, resExchangeStep, applyDeltaStep,
      probeGroupStep, cleanupStep, valsStep, exdefStep, dumpStep,
      capDeltaStep, snapSinks, conductivityMap, injectSources,
      diffusionDeltas, diffuseCell, halfDirs, sinkKeysOf, resExchange,
      radiatorPhase, applyDeltas, probeGroupsOf, collectPhase, collectStep,
      cleanupPhase, capDeltas, accumCollected, perimeterOf, hexRing,
      hexRingSide, hexAdd, hexDir, hexScale, hexNeighbor, HEX_CUBE_DIRS,
      keysA, lookupA, setA, getDA, addA, insertA, List.foldl, List.find?]

/-- C4, amended: during the LOS phase of a tick, a probe's entity-map entry
becomes `destroyed := true` exactly when it was not already destroyed (in
the overheat-updated map or by its own flag) and some **active** source —
its `destroyed` flag is irrelevant — has a finite `hexCornerLOS` to it
through the current non-destroyed, non-disabled shield set; already
destroyed probes are left untouched. -/
theorem C4_amended_los_destruction (rand : ℕ → ℚ) (st : SimulationState)
    (p : Entity) (hp : p ∈ probesOf st.entities)
    (hnd : ((probesOf st.entities).map (fun q => q.pos)).Nodup) :
    lookupA (tickSimulation rand st).nextState.entities p.pos =
      (if ((lookupA (probeOverheat rand st).ents p.pos).map
            Entity.destroyed).getD false then
        lookupA (probeOverheat rand st).ents p.pos
      else if p.destroyed then lookupA (probeOverheat rand st).ents p.pos
      else if (sourcesOf st.entities).any (fun s => s.isActive &&
          (hexCornerLOS p.pos s.pos
            (fun h => decide (h ∈ tickShieldKeys rand st))
            (tickShieldKeys rand st)).isSome) then
        some { p with destroyed := true }
      else lookupA (probeOverheat rand st).ents p.pos) := by
  have : (tickSimulation rand st).nextState.entities = (tickLosRes rand st).1 :=
    rfl
  rw [this, tickLosRes, losPass]
  exact losFold_lookup _ _ _ p hp hnd _

/-- Witness for the amended C4: the probe of `destroyedSourceState` is not
yet destroyed, sees the (destroyed but active) source, and its entry becomes
destroyed. -/
theorem C4_amended_witness :
    lookupA (tickSimulation (fun _ => 1) destroyedSourceState).nextState.entities
        ((0, 0, 0) : Coord) =
      (if ((lookupA (probeOverheat (fun _ => 1) destroyedSourceState).ents
            ((0, 0, 0) : Coord)).map Entity.destroyed).getD false then
        lookupA (probeOverheat (fun _ => 1) destroyedSourceState).ents (0, 0, 0)
      else if ({ pos := (0, 0, 0), kind := .probe } : Entity).destroyed then
        lookupA (probeOverheat (fun _ => 1) destroyedSourceState).ents (0, 0, 0)
      else if (sourcesOf destroyedSourceState.entities).any (fun s =>
          s.isActive &&
          (hexCornerLOS (0, 0, 0) s.pos
            (fun h => decide (h ∈ tickShieldKeys (fun _ => 1) destroyedSourceState))
            (tickShieldKeys (fun _ => 1) destroyedSourceState)).isSome) then
        some { pos := (0, 0, 0), destroyed := true, kind := .probe }
      else lookupA (probeOverheat (fun _ => 1) destroyedSourceState).ents
        (0, 0, 0)) :=
  C4_amended_los_destruction (fun _ => 1) destroyedSourceState
    { pos := (0, 0, 0), kind := .probe }
    (by simp [probesOf, destroyedSourceState, emptyState, Entity.isProbeE,
      Entity.isSourceE])
    (by simp [probesOf, destroyedSourceState, emptyState, Entity.isProbeE,
      Entity.isSourceE])

/-! ## C6 — a full capacitor stops its group's collection -/

/-- An entry of a set-updated map is an old entry or the new pair. -/
theorem mem_setA {K V : Type} [DecidableEq K] (m : List (K × V)) (k : K)
    (v : V) (e : K × V) (h : e ∈ setA m k v) : e ∈ m ∨ e = (k, v) := by
  induction m with
  | nil =>
    simp [setA] at h
    exact Or.inr h
  | cons a t ih =>
    rw [setA] at h
    by_cases ha : a.1 = k
    · rw [if_pos ha] at h
      rcases List.mem_cons.mp h with h | h
      · exact Or.inr h
      · exact Or.inl (List.mem_cons_of_mem a h)
    · rw [if_neg ha] at h
      rcases List.mem_cons.mp h with h | h
      · exact Or.inl (List.mem_cons.mpr (Or.inl h))
      · rcases ih h with h | h
        · exact Or.inl (List.mem_cons_of_mem a h)
        · exact Or.inr h

/-- The capacitor pass only writes a group's effective throttle at that
group's own entry. -/
theorem capFold_eff_frozen (L : List (ℤ × Capacitor))
    (acc : List (ℤ × Capacitor) × List (ℤ × ℚ)) (g : ℤ)
    (hg : ∀ e ∈ L, e.1 ≠ g) :
    lookupA (L.foldl capStep acc).2 g = lookupA acc.2 g := by
  induction L generalizing acc with
  | nil => rfl
  | cons e t ih =>
    rw [List.foldl_cons, ih _ (fun e' he' => hg e' (List.mem_cons_of_mem e he'))]
    simp only [capStep]
    split_ifs with h1
    · exact lookupA_setA_ne _ _ _ _ (Ne.symm (hg e (List.mem_cons_self e t)))
    · rfl

/-- A capacitor at or above capacity before the drain forces its group's
effective probe throttle to 0. -/
theorem capFold_eff_full (L : List (ℤ × Capacitor))
    (acc : List (ℤ × Capacitor) × List (ℤ × ℚ)) (g : ℤ) (c : Capacitor)
    (hnd : (keysA L).Nodup) (hc : lookupA L g = some c)
    (hfull : c.capacity ≤ c.stored) :
    lookupA (L.foldl capStep acc).2 g = some 0 := by
  induction L generalizing acc with
  | nil => simp [lookupA] at hc
  | cons e t ih =>
    rw [keysA_cons] at hnd
    rw [lookupA_cons] at hc
    by_cases he : e.1 = g
    · rw [if_pos he] at hc
      have hce : c = e.2 := (Option.some_inj.mp hc).symm
      have hgt : ∀ e' ∈ t, e'.1 ≠ g := by
        intro e' he' hcon
        refine (List.nodup_cons.mp hnd).1 ?_
        rw [he, ← hcon]
        exact List.mem_map.mpr ⟨e', he', rfl⟩
      rw [List.foldl_cons, capFold_eff_frozen t _ g hgt]
      simp only [capStep]
      rw [if_pos (by rw [← hce]; exact hfull), he]
      exact lookupA_setA_self _ _ _
    · rw [if_neg he] at hc
      rw [List.foldl_cons]
      exact ih _ (List.nodup_cons.mp hnd).2 hc

/-- A collection step for a group whose effective throttle is non-positive
is a no-op. -/
theorem collectStep_skip (eff : List (ℤ × ℚ)) (acc : CollectAcc)
    (e : ℤ × List Coord) (h : getDA eff e.1 0 ≤ 0) :
    collectStep eff acc e = acc := by
  rw [collectStep, if_pos h]

/-- A collection step for another group does not write this group's
collected-energy entry. -/
theorem collectStep_collected_ne (eff : List (ℤ × ℚ)) (acc : CollectAcc)
    (e : ℤ × List Coord) (g : ℤ) (hne : e.1 ≠ g) :
    lookupA (collectStep eff acc e).collected g = lookupA acc.collected g := by
  simp only [collectStep]
  split_ifs with h1 h2 h3 h4
  · rfl
  · rfl
  · rfl
  · rfl
  · exact lookupA_setA_ne _ _ _ _ (Ne.symm hne)

/-- No group ever writes the collected-energy entry of a group whose
throttle is non-positive. -/
theorem collectFold_collected_none (eff : List (ℤ × ℚ))
    (groups : List (ℤ × List Coord)) (g : ℤ) (hthr : getDA eff g 0 ≤ 0)
    (acc : CollectAcc) (hacc : lookupA acc.collected g = none) :
    lookupA (groups.foldl (collectStep eff) acc).collected g = none := by
  induction groups generalizing acc with
  | nil => exact hacc
  | cons e t ih =>
    rw [List.foldl_cons]
    refine ih _ ?_
    by_cases he : e.1 = g
    · rw [collectStep_skip eff acc e (by rw [he]; exact hthr)]
      exact hacc
    · rw [collectStep_collected_ne eff acc e g he]
      exact hacc

/-- Reading a group's cells touches no foreign key. -/
theorem valsFold_lookup_frozen (E : List (Coord × ℚ)) (kl : List Coord)
    (k : Coord) (v0 : List (Coord × ℚ) × ℚ × ℕ) (hk : k ∉ kl) :
    lookupA (kl.foldl (valsStep E) v0).1 k = lookupA v0.1 k := by
  induction kl generalizing v0 with
  | nil => rfl
  | cons a t ih =>
    rw [List.mem_cons] at hk
    push_neg at hk
    rw [List.foldl_cons, ih _ hk.2]
    simp only [valsStep]
    split_ifs with h1
    · rfl
    · exact lookupA_setA_ne _ _ _ _ hk.1

/-- The heat-moving loop writes only the keys of the recorded values. -/
theorem dumpFold_frozen (mean tE tD qM qD : ℚ) (values : List (Coord × ℚ))
    (E : List (Coord × ℚ)) (k : Coord) (hks : ∀ e ∈ values, e.1 ≠ k) :
    lookupA (values.foldl (dumpStep mean tE tD qM qD) E) k = lookupA E k := by
  induction values generalizing E with
  | nil => rfl
  | cons e t ih =>
    rw [List.foldl_cons, ih _ (fun e' he' => hks e' (List.mem_cons_of_mem e he'))]
    simp only [dumpStep, addA]
    exact lookupA_setA_ne _ _ _ _ (Ne.symm (hks e (List.mem_cons_self e t)))

/-- A collection step for another group, none of whose member cells is `k`,
leaves the field value at `k` alone. -/
theorem collectStep_E_ne (eff : List (ℤ × ℚ)) (acc : CollectAcc)
    (e : ℤ × List Coord) (k : Coord) (hk : k ∉ e.2) :
    lookupA (collectStep eff acc e).E k = lookupA acc.E k := by
  have hvals : lookupA (e.2.foldl (valsStep acc.E) ([], 0, 0)).1 k = none := by
    rw [valsFold_lookup_frozen acc.E e.2 k ([], 0, 0) hk]
    rfl
  have hks : ∀ e' ∈ (e.2.foldl (valsStep acc.E) ([], 0, 0)).1, e'.1 ≠ k := by
    intro e' he' hcon
    have : k ∈ keysA (e.2.foldl (valsStep acc.E) ([], 0, 0)).1 :=
      List.mem_map.mpr ⟨e', he', hcon⟩
    rw [mem_keysA_iff_lookupA, hvals] at this
    exact absurd this (by simp)
  simp only [collectStep]
  split_ifs with h1 h2 h3 h4
  · rfl
  · rfl
  · rfl
  · rfl
  · exact dumpFold_frozen _ _ _ _ _ _ acc.E k hks

/-- The whole collection pass leaves the field value at `k` alone when every
group containing `k` has a non-positive throttle. -/
theorem collectFold_E_frozen (eff : List (ℤ × ℚ))
    (groups : List (ℤ × List Coord)) (k : Coord)
    (hk : ∀ e ∈ groups, k ∈ e.2 → getDA eff e.1 0 ≤ 0) (acc : CollectAcc) :
    lookupA (groups.foldl (collectStep eff) acc).E k = lookupA acc.E k := by
  induction groups generalizing acc with
  | nil => rfl
  | cons e t ih =>
    rw [List.foldl_cons,
      ih (fun e' he' => hk e' (List.mem_cons_of_mem e he')) _]
    by_cases hke : k ∈ e.2
    · rw [collectStep_skip eff acc e (hk e (List.mem_cons_self e t) hke)]
    · rw [collectStep_E_ne eff acc e k hke]

/-- Every cell of every probe group traces back to a live probe of that
group. -/
theorem probeGroupsFold_R (R : ℤ → Coord → Prop) (dk : List Coord)
    (L : List Entity) (acc : List (ℤ × List Coord))
    (hL : ∀ q ∈ L, R (q.groupId.getD 1) q.pos)
    (hacc : ∀ e ∈ acc, ∀ k ∈ e.2, R e.1 k) :
    ∀ e ∈ L.foldl (probeGroupStep dk) acc, ∀ k ∈ e.2, R e.1 k := by
  induction L generalizing acc with
  | nil => exact hacc
  | cons q t ih =>
    rw [List.foldl_cons]
    refine ih _ (fun q' hq' => hL q' (List.mem_cons_of_mem q hq')) ?_
    intro e he k hk
    have hq := hL q (List.mem_cons_self q t)
    simp only [probeGroupStep] at he
    by_cases hdk : q.pos ∈ dk
    · rw [if_pos hdk] at he
      exact hacc e he k hk
    · rw [if_neg hdk] at he
      cases hfound : lookupA acc (q.groupId.getD 1) with
      | none =>
        rw [hfound] at he
        rcases List.mem_append.mp he with he | he
        · exact hacc e he k hk
        · rcases List.mem_singleton.mp he with rfl
          rcases List.mem_singleton.mp hk with rfl
          exact hq
      | some l =>
        rw [hfound] at he
        rcases mem_setA _ _ _ _ he with he | he
        · exact hacc e he k hk
        · rcases he with rfl
          simp only
          rcases List.mem_append.mp hk with hk | hk
          · exact hacc _ (lookupA_mem _ _ _ hfound) k hk
          · rcases List.mem_singleton.mp hk with rfl
            exact hq

/-- C6: when a probe group's capacitor is at or above capacity before the
per-tick drain, the group's effective throttle is forced to 0 independently
of the caller throttle, no energy is collected for the group this tick, and
the extraction pass does not change the group's probe cells. -/
theorem C6_capacitor_full_stop (rand : ℕ → ℚ) (st : SimulationState) (g : ℤ)
    (c : Capacitor) (p : Entity)
    (hc : lookupA st.capacitors g = some c)
    (hfull : c.capacity ≤ c.stored)
    (hndc : (keysA st.capacitors).Nodup)
    (hp : p ∈ probesOf st.entities)
    (hg : p.groupId.getD 1 = g)
    (hndp : ((probesOf st.entities).map (fun q => q.pos)).Nodup) :
    lookupA (tickCapRes st).2 g = some 0 ∧
    lookupA (tickSimulation rand st).energyCollected g = none ∧
    lookupA (tickSimulation rand st).nextState.lastTickEnergy g = none ∧
    lookupA (tickColl rand st).E p.pos = lookupA (tickE4 st) p.pos := by
  have heff : lookupA (tickCapRes st).2 g = some 0 := by
    rw [tickCapRes, capacitorPhase]
    exact capFold_eff_full st.capacitors _ g c hndc hc hfull
  have hthr : getDA (tickCapRes st).2 g 0 ≤ 0 := by
    rw [getDA, heff]
    simp
  have hcoll : lookupA (tickColl rand st).collected g = none := by
    rw [tickColl, collectPhase]
    exact collectFold_collected_none _ _ g hthr _ rfl
  refine ⟨heff, hcoll, hcoll, ?_⟩
  rw [tickColl, collectPhase]
  refine collectFold_E_frozen _ _ p.pos ?_ _
  intro e he hke
  have hsrc := probeGroupsFold_R
    (fun gid k => ∃ q ∈ probesOf st.entities,
      q.pos = k ∧ q.groupId.getD 1 = gid)
    (tickLosRes rand st).2 (probesOf st.entities) []
    (fun q hq => ⟨q, hq, rfl, rfl⟩) (by simp)
  rw [tickGroups, probeGroupsOf] at he
  rcases hsrc e he p.pos hke with ⟨q, hq, hqpos, hqgid⟩
  have hqp : q = p :=
    List.inj_on_of_nodup_map hndp hq hp (by rw [hqpos])
  rw [← hqgid, hqp, hg]
  exact hthr

/-- Witness for C6 on `fullCapacitorState`: capacitor 1 is full (5/5), the
caller throttle is 1, yet the effective throttle is 0, nothing is
collected, and the hot probe cell is untouched by extraction. -/
theorem C6_witness :
    lookupA (tickCapRes fullCapacitorState).2 1 = some 0 ∧
    lookupA (tickSimulation (fun _ => 1) fullCapacitorState).energyCollected 1
      = none ∧
    lookupA (tickSimulation (fun _ => 1) fullCapacitorState).nextState.lastTickEnergy
      1 = none ∧
    lookupA (tickColl (fun _ => 1) fullCapacitorState).E ((0, 0, 0) : Coord)
      = lookupA (tickE4 fullCapacitorState) ((0, 0, 0) : Coord) :=
  C6_capacitor_full_stop (fun _ => 1) fullCapacitorState 1
    { id := 1, stored := 5, capacity := 5, drainRate := 0, surchargeCost := 0 }
    { pos := (0, 0, 0), groupId := some 1, kind := .probe }
    (by simp [fullCapacitorState, emptyState, lookupA, List.find?])
    (by norm_num)
    (by simp [fullCapacitorState, emptyState, keysA])
    (by simp [probesOf, fullCapacitorState, emptyState, Entity.isProbeE])
    (by simp)
    (by simp [probesOf, fullCapacitorState, emptyState, Entity.isProbeE]; decide)

/-! ## C8 — the field domain across a tick

The machinery below shows which phases can write which field keys; it is
shared with the conservation claim. -/

/-- Invariants carried through a left fold. -/
theorem foldl_invariant {α β : Type} (P : β → Prop) (L : List α) (f : β → α → β)
    (b : β) (hb : P b) (hstep : ∀ b a, a ∈ L → P b → P (f b a)) :
    P (L.foldl f b) := by
  induction L generalizing b with
  | nil => exact hb
  | cons a t ih =>
    rw [List.foldl_cons]
    exact ih _ (hstep b a (List.mem_cons_self a t) hb)
      (fun b' a' ha' => hstep b' a' (List.mem_cons_of_mem a ha'))

/-- A key of a set-updated map is an old key or the set key. -/
theorem keysA_setA_sub {K V : Type} [DecidableEq K] (m : List (K × V)) (k : K)
    (v : V) (j : K) (h : j ∈ keysA (setA m k v)) : j ∈ keysA m ∨ j = k := by
  by_cases hk : k ∈ keysA m
  · rw [keysA_setA_of_mem m k v hk] at h
    exact Or.inl h
  · rw [keysA_setA_of_not_mem m k v hk] at h
    rcases List.mem_append.mp h with h | h
    · exact Or.inl h
    · exact Or.inr (List.mem_singleton.mp h)

/-- One sink snap preserves the key set provided the written sink (one with
a reservoir) sits on an existing cell. -/
theorem keysA_snapSinkStep (res : List (ℤ × Reservoir)) (E : List (Coord × ℚ))
    (s : Entity)
    (h : ∀ g, s.groupId = some g → (lookupA res g).isSome → s.pos ∈ keysA E) :
    keysA (snapSinkStep res E s) = keysA E := by
  rw [snapSinkStep]
  cases hg : s.groupId with
  | none => rfl
  | some g =>
    show keysA (match lookupA res g with
        | none => E
        | some r => setA E s.pos (r.heat / max 1 r.volume)) = keysA E
    cases hr : lookupA res g with
    | none => rfl
    | some r => exact keysA_setA_of_mem E s.pos _ (h g hg (by rw [hr]; rfl))

/-- The sink-snap pass preserves the key set. -/
theorem keysA_snapSinks (res : List (ℤ × Reservoir)) (sinks : List Entity)
    (E : List (Coord × ℚ))
    (h : ∀ s ∈ sinks, ∀ g, s.groupId = some g → (lookupA res g).isSome →
      s.pos ∈ keysA E) :
    keysA (snapSinks res sinks E) = keysA E := by
  rw [snapSinks]
  refine foldl_invariant (fun m => keysA m = keysA E) sinks (snapSinkStep res)
    E rfl ?_
  intro m s hs hm
  rw [keysA_snapSinkStep res m s (fun g hg hr => by
    rw [hm]; exact h s hs g hg hr), hm]

/-- Source injection preserves the key set of the field. -/
theorem keysA_injectSources (gt : List (ℤ × ℚ)) (sources : List Entity)
    (E : List (Coord × ℚ)) :
    keysA (injectSources gt sources E).1 = keysA E := by
  rw [injectSources]
  refine foldl_invariant
    (fun (acc : List (Coord × ℚ) × List (Coord × ℚ)) => keysA acc.1 = keysA E)
    sources (injectStep gt) (E, []) rfl ?_
  intro acc s hs hacc
  simp only [injectStep]
  split_ifs with h1 h2
  · exact hacc
  · exact hacc
  · simp only
    rw [addA, ← hacc]
    refine keysA_setA_of_mem _ _ _ ?_
    rw [mem_keysA_iff_lookupA]
    rw [Option.isNone_iff_eq_none] at h2
    cases hl : lookupA acc.1 s.pos with
    | none => exact absurd hl h2
    | some v => rfl

/-- Every key the diffusion delta map mentions is a field key. -/
theorem keysA_diffusionDeltas_sub (E cond : List (Coord × ℚ)) (bK al : ℚ)
    (j : Coord) (hj : j ∈ keysA (diffusionDeltas E cond bK al)) :
    j ∈ keysA E := by
  simp only [diffusionDeltas] at hj
  have h0 : ∀ i ∈ keysA ((keysA E).foldl
      (fun m k => setA m k (0 : ℚ)) []), i ∈ keysA E := by
    refine foldl_invariant
      (fun (m : List (Coord × ℚ)) => ∀ i ∈ keysA m, i ∈ keysA E) (keysA E)
      (fun m k => setA m k 0) [] (by simp [keysA]) ?_
    intro m k hk hm i hi
    rcases keysA_setA_sub _ _ _ _ hi with hi | hi
    · exact hm i hi
    · exact hi ▸ hk
  have hsub : ∀ m, (∀ i ∈ keysA m, i ∈ keysA E) →
      ∀ aKey ∈ keysA E, ∀ i ∈ keysA (diffuseCell E cond bK al aKey m),
        i ∈ keysA E := by
    intro m hm aKey ha
    rw [diffuseCell]
    refine foldl_invariant
      (fun (d : List (Coord × ℚ)) => ∀ i ∈ keysA d, i ∈ keysA E) halfDirs
      (diffuseDirStep E cond bK al aKey) m hm ?_
    intro d dir hdir hd i hi
    rw [diffuseDirStep] at hi
    by_cases hb : (lookupA E (hexAdd aKey dir)).isNone
    · rw [if_pos hb] at hi
      exact hd i hi
    · rw [if_neg hb] at hi
      simp only [addA] at hi
      rcases keysA_setA_sub _ _ _ _ hi with hi | hi
      · rcases keysA_setA_sub _ _ _ _ hi with hi | hi
        · exact hd i hi
        · exact hi ▸ ha
      · rw [hi, mem_keysA_iff_lookupA]
        rw [Option.isNone_iff_eq_none] at hb
        cases hl : lookupA E (hexAdd aKey dir) with
        | none => exact absurd hl hb
        | some v => rfl
  exact foldl_invariant
    (fun (d : List (Coord × ℚ)) => ∀ i ∈ keysA d, i ∈ keysA E) (keysA E)
    (fun d aKey => diffuseCell E cond bK al aKey d) _ h0
    (fun d aKey ha hd => hsub d hd aKey ha) j hj

/-- Applying deltas whose keys are field keys preserves the key set. -/
theorem keysA_applyDeltas (sk : List Coord) (delta : List (Coord × ℚ))
    (E : List (Coord × ℚ)) (h : ∀ e ∈ delta, e.1 ∈ keysA E) :
    keysA (applyDeltas sk delta E) = keysA E := by
  rw [applyDeltas]
  refine foldl_invariant (fun m => keysA m = keysA E) delta _ E rfl ?_
  intro m e he hm
  rw [applyDeltaStep]
  split_ifs with h1
  · exact hm
  · rw [addA, ← hm]
    exact keysA_setA_of_mem _ _ _ (by rw [hm]; exact h e he)

/-- The reservoir exchange preserves the reservoir key set. -/
theorem keysA_resExchange (srcIn delta : List (Coord × ℚ))
    (sinks : List Entity) (res : List (ℤ × Reservoir)) :
    keysA (resExchange srcIn delta sinks res) = keysA res := by
  rw [resExchange]
  refine foldl_invariant (fun r => keysA r = keysA res) sinks
    (resExchangeStep srcIn delta) res rfl ?_
  intro r s hs hr
  rw [resExchangeStep]
  cases hg : s.groupId with
  | none => exact hr
  | some g =>
    show keysA (match lookupA r g with
        | none => r
        | some r0 =>
          let totalIn := getDA srcIn s.pos 0 + getDA delta s.pos 0
          setA r g { r0 with heat := r0.heat + totalIn }) = keysA res
    cases hl : lookupA r g with
    | none => exact hr
    | some r0 =>
      rw [← hr]
      refine keysA_setA_of_mem _ _ _ ?_
      rw [mem_keysA_iff_lookupA, hl]
      rfl

/-- The radiator pass preserves the reservoir key set. -/
theorem keysA_radiatorPhase (res : List (ℤ × Reservoir)) :
    keysA (radiatorPhase res) = keysA res :=
  keysA_map_keyfix res _ (fun e => rfl)

/-- Every recorded probe-group value sits on a field key. -/
theorem valsFold_keys_sub (E : List (Coord × ℚ)) (kl : List Coord)
    (e : Coord × ℚ) (he : e ∈ (kl.foldl (valsStep E) ([], 0, 0)).1) :
    e.1 ∈ keysA E := by
  have := foldl_invariant
    (fun (v : List (Coord × ℚ) × ℚ × ℕ) => ∀ e ∈ v.1, e.1 ∈ keysA E)
    kl (valsStep E) ([], 0, 0) (by simp) ?_
  · exact this e he
  · intro v k hk hv e' he'
    rw [valsStep] at he'
    by_cases h1 : (lookupA E k).isNone
    · rw [if_pos h1] at he'
      exact hv e' he'
    · rw [if_neg h1] at he'
      simp only at he'
      rcases mem_setA _ _ _ _ he' with he' | he'
      · exact hv e' he'
      · rw [he']
        rw [mem_keysA_iff_lookupA]
        rw [Option.isNone_iff_eq_none] at h1
        cases hl : lookupA E k with
        | none => exact absurd hl h1
        | some v0 => rfl

/-- The heat-moving loop preserves the key set when it writes only field
keys. -/
theorem keysA_dumpFold (mean tE tD qM qD : ℚ) (values : List (Coord × ℚ))
    (E E0 : List (Coord × ℚ)) (hE : keysA E = keysA E0)
    (h : ∀ e ∈ values, e.1 ∈ keysA E0) :
    keysA (values.foldl (dumpStep mean tE tD qM qD) E) = keysA E0 := by
  refine foldl_invariant (fun m => keysA m = keysA E0) values _ E hE ?_
  intro m e he hm
  rw [dumpStep]
  simp only [addA, ← hm]
  exact keysA_setA_of_mem _ _ _ (by rw [hm]; exact h e he)

/-- One collection step preserves the field key set. -/
theorem keysA_collectStep (eff : List (ℤ × ℚ)) (acc : CollectAcc)
    (e : ℤ × List Coord) :
    keysA (collectStep eff acc e).E = keysA acc.E := by
  simp only [collectStep]
  split_ifs with h1 h2 h3 h4
  · rfl
  · rfl
  · rfl
  · rfl
  · exact keysA_dumpFold _ _ _ _ _ _ _ _ rfl
      (fun e' he' => valsFold_keys_sub acc.E e.2 e' he')

/-- The collection pass preserves the field key set. -/
theorem keysA_collectPhase (eff : List (ℤ × ℚ))
    (groups : List (ℤ × List Coord)) (E : List (Coord × ℚ))
    (caps : List (ℤ × Capacitor)) :
    keysA (collectPhase eff groups E caps).E = keysA E := by
  rw [collectPhase]
  refine foldl_invariant (fun (acc : CollectAcc) => keysA acc.E = keysA E)
    groups (collectStep eff) ⟨E, [], caps⟩ rfl ?_
  intro acc e he hacc
  rw [keysA_collectStep, hacc]

/-- Cleanup preserves the field key set. -/
theorem keysA_cleanupPhase (Eold E : List (Coord × ℚ)) :
    keysA (cleanupPhase Eold E).1 = keysA E := by
  rw [cleanupPhase]
  refine foldl_invariant
    (fun (acc : List (Coord × ℚ) × List (Coord × ℚ)) => keysA acc.1 = keysA E)
    E (cleanupStep Eold) (E, []) rfl ?_
  intro acc e he hacc
  simp only [cleanupStep]
  rw [← hacc]
  exact keysA_setA_of_mem _ _ _
    (by rw [hacc]; exact List.mem_map.mpr ⟨e, he, rfl⟩)

/-- The key set of the energy field across one whole tick: preserved as soon
as every sink whose group has a reservoir sits on an existing cell. -/
theorem tick_keysA_preserved (rand : ℕ → ℚ) (st : SimulationState)
    (hsink : ∀ s ∈ sinksOf st.entities, ∀ g, s.groupId = some g →
      (lookupA st.reservoirs g).isSome → s.pos ∈ keysA st.E) :
    keysA (tickSimulation rand st).nextState.E = keysA st.E := by
  have hE1 : keysA (tickE1 st) = keysA st.E := by
    rw [tickE1]
    exact keysA_snapSinks _ _ _ hsink
  have hE2 : keysA (tickInj st).1 = keysA st.E := by
    rw [tickInj, keysA_injectSources, hE1]
  have hdelta : ∀ e ∈ tickDelta st, e.1 ∈ keysA (tickInj st).1 := by
    intro e he
    have hj : e.1 ∈ keysA (tickDelta st) := List.mem_map.mpr ⟨e, he, rfl⟩
    rw [tickDelta] at hj
    exact keysA_diffusionDeltas_sub _ _ _ _ e.1 hj
  have hE3 : keysA (tickE3 st) = keysA st.E := by
    rw [tickE3, keysA_applyDeltas _ _ _ hdelta, hE2]
  have hres2 : keysA (tickRes2 st) = keysA st.reservoirs := by
    rw [tickRes2, keysA_radiatorPhase, tickRes1, keysA_resExchange]
  have hE4 : keysA (tickE4 st) = keysA st.E := by
    rw [tickE4, keysA_snapSinks _ _ _ ?_, hE3]
    intro s hs g hg hr
    rw [hE3]
    refine hsink s hs g hg ?_
    rw [← mem_keysA_iff_lookupA] at hr ⊢
    rw [← hres2]
    exact hr
  have hcoll : keysA (tickColl rand st).E = keysA st.E := by
    rw [tickColl, keysA_collectPhase, hE4]
  have : (tickSimulation rand st).nextState.E = (tickCleaned rand st).1 := rfl
  rw [this, tickCleaned, keysA_cleanupPhase, hcoll]

/-- C8, counterexample: the claim says out-of-domain entities touch nothing
and the key set of the field is preserved, but the sink-snap pass writes a
sink's cell without checking the domain — on `outOfDomainSinkState` the
out-of-domain sink (with a reservoir) adds its cell to the field. -/
theorem C8_counterexample :
    (∀ s ∈ sinksOf outOfDomainSinkState.entities,
      s.pos ∉ keysA outOfDomainSinkState.E) ∧
    keysA outOfDomainSinkState.E = [(0, 0, 0)] ∧
    keysA (tickSimulation (fun _ => 1) outOfDomainSinkState).nextState.E
      = [(0, 0, 0), (5, -5, 0)] ∧
    keysA (tickSimulation (fun _ => 1) outOfDomainSinkState).nextState.E
      ≠ keysA outOfDomainSinkState.E := by
  have h2 : keysA outOfDomainSinkState.E = [(0, 0, 0)] := rfl
  have h3 : keysA (tickSimulation (fun _ => 1) outOfDomainSinkState).nextState.E
      = [(0, 0, 0), (5, -5, 0)] := by
    simp +decide [tickSimulation, tickColl, tickCleaned, tickGroups, tickE4,
      tickE3, tickRes2, tickRes1, tickDelta, tickInj, tickCond, tickE1,
      tickCapRes, tickLosRes, tickShieldKeys, probeOverheat, sinkOverheat,
      shieldOverheat, outOfDomainSinkState, emptyState, sourcesOf, sinksOf,
      shieldsOf, probesOf, Entity.isSourceE, Entity.isSinkE, Entity.isShieldE,
      Entity.isProbeE, overheatPass, overheatStep, blockKeysOf, blockKeyStep,
      losPass, losStep, capacitorPhase, capStep, condShieldStep, condSinkStep,
      snapSinkStep, injectStep, diffuseDirStep, resExchangeStep,
      applyDeltaStep, probeGroupStep, cleanupStep, valsStep, exdefStep,
      dumpStep, capDeltaStep, snapSinks, conductivityMap, injectSources,
      diffusionDeltas, diffuseCell, halfDirs, sinkKeysOf, resExchange,
      radiatorPhase, applyDeltas, probeGroupsOf, collectPhase, collectStep,
      cleanupPhase, capDeltas, accumCollected, perimeterOf, hexRing,
      hexRingSide, hexAdd, hexDir, hexScale, hexNeighbor, HEX_CUBE_DIRS,
      keysA, lookupA, setA, getDA, addA, insertA, List.foldl, List.find?]
  refine ⟨?_, h2, h3, ?_⟩
  · intro s hs
    simp [sinksOf, outOfDomainSinkState, emptyState, Entity.isSinkE] at hs
    rw [hs, h2]
    decide
  · rw [h2, h3]
    decide

/-- C8, amended: the key set of the energy field is identical before and
after every tick provided every sink whose group has a reservoir is
positioned inside the field domain (an out-of-domain sink with a reservoir
writes its cell into the field; the other passes only ever write existing
cells). -/
theorem C8_amended_domain_preserved (rand : ℕ → ℚ) (st : SimulationState)
    (hsink : ∀ s ∈ sinksOf st.entities, ∀ g, s.groupId = some g →
      (lookupA st.reservoirs g).isSome → s.pos ∈ keysA st.E) :
    keysA (tickSimulation rand st).nextState.E = keysA st.E :=
  tick_keysA_preserved rand st hsink

/-- Witness for the amended C8 on the entity-free hot-center board. -/
theorem C8_amended_witness :
    keysA (tickSimulation (fun _ => 0) (hotCenterState (1/10))).nextState.E
      = keysA (hotCenterState (1/10)).E :=
  C8_amended_domain_preserved (fun _ => 0) (hotCenterState (1/10))
    (by simp [sinksOf, hotCenterState, emptyState])

/-! ## C1 — conservation under pure diffusion -/

/-- A map whose values are all zero sums to zero. -/
theorem sumA_zero_of_all_zero {K : Type} (m : List (K × ℚ))
    (h : ∀ e ∈ m, e.2 = 0) : sumA m = 0 := by
  induction m with
  | nil => rfl
  | cons e t ih =>
    rw [sumA_cons, h e (List.mem_cons_self e t),
      ih (fun e' he' => h e' (List.mem_cons_of_mem e he'))]
    ring

/-- One diffusion edge moves the same flux out of one cell and into the
other: the delta map's total is untouched. -/
theorem sumA_diffuseDirStep (E cond : List (Coord × ℚ)) (bK al : ℚ)
    (aKey : Coord) (d : List (Coord × ℚ)) (dir : Coord) :
    sumA (diffuseDirStep E cond bK al aKey d dir) = sumA d := by
  simp only [diffuseDirStep]
  split_ifs with h1
  · rfl
  · rw [sumA_addA, sumA_addA]
    ring

/-- The diffusion pass accumulates to a zero-sum delta map. -/
theorem sumA_diffusionDeltas (E cond : List (Coord × ℚ)) (bK al : ℚ) :
    sumA (diffusionDeltas E cond bK al) = 0 := by
  simp only [diffusionDeltas]
  have h0 : sumA ((keysA E).foldl (fun m k => setA m k (0 : ℚ)) []) = 0 := by
    refine sumA_zero_of_all_zero _ ?_
    refine foldl_invariant
      (fun (m : List (Coord × ℚ)) => ∀ e ∈ m, e.2 = 0) (keysA E)
      (fun m k => setA m k 0) [] (by simp) ?_
    intro m k hk hm e he
    rcases mem_setA _ _ _ _ he with he | he
    · exact hm e he
    · rw [he]
  refine foldl_invariant (fun (d : List (Coord × ℚ)) => sumA d = 0) (keysA E)
    (fun d aKey => diffuseCell E cond bK al aKey d) _ h0 ?_
  intro d aKey ha hd
  simp only [diffuseCell]
  refine foldl_invariant (fun (d : List (Coord × ℚ)) => sumA d = 0) halfDirs
    (diffuseDirStep E cond bK al aKey) d hd ?_
  intro d' dir hdir hd'
  rw [sumA_diffuseDirStep, hd']

/-- With no sink cells, applying the delta map adds its total to the field
total. -/
theorem sumA_applyDeltas_nil (delta E : List (Coord × ℚ)) :
    sumA (applyDeltas [] delta E) = sumA E + sumA delta := by
  rw [applyDeltas]
  induction delta generalizing E with
  | nil => simp [sumA]
  | cons e t ih =>
    rw [List.foldl_cons, ih]
    have hstep : applyDeltaStep [] E e = addA E e.1 e.2 := by
      rw [applyDeltaStep, if_neg (List.not_mem_nil e.1)]
    rw [hstep, sumA_addA, sumA_cons]
    ring

/-- In a map with duplicate-free keys, every entry is its key's first
match. -/
theorem entries_lookup_of_nodup {K V : Type} [DecidableEq K]
    (m : List (K × V)) (hnd : (keysA m).Nodup) :
    ∀ e ∈ m, lookupA m e.1 = some e.2 := by
  induction m with
  | nil => simp
  | cons a t ih =>
    rw [keysA_cons] at hnd
    intro e he
    rcases List.mem_cons.mp he with he | he
    · rw [he, lookupA_cons, if_pos rfl]
    · have hne : a.1 ≠ e.1 := by
        intro hcon
        exact (List.nodup_cons.mp hnd).1
          (by rw [hcon]; exact List.mem_map.mpr ⟨e, he, rfl⟩)
      rw [lookupA_cons, if_neg hne]
      exact ih (List.nodup_cons.mp hnd).2 e he

/-- The end-of-tick cleanup changes the field total by at most `1e-12` per
processed cell. -/
theorem cleanup_sum_bound (Eold : List (Coord × ℚ))
    (L : List (Coord × ℚ)) (acc : List (Coord × ℚ) × List (Coord × ℚ))
    (hL : ∀ e ∈ L, lookupA acc.1 e.1 = some e.2)
    (hnd : (L.map (fun e => e.1)).Nodup) :
    |sumA (L.foldl (cleanupStep Eold) acc).1 - sumA acc.1|
      ≤ L.length * (1 / 1000000000000) := by
  induction L generalizing acc with
  | nil => simp
  | cons e t ih =>
    rw [List.map_cons] at hnd
    have hstep1 : (cleanupStep Eold acc e).1
        = setA acc.1 e.1 (if |e.2| < 1 / 1000000000000 then 0 else e.2) := rfl
    have hsum1 : sumA (cleanupStep Eold acc e).1
        = sumA acc.1 - e.2 + (if |e.2| < 1 / 1000000000000 then 0 else e.2) := by
      rw [hstep1, sumA_setA, getDA, hL e (List.mem_cons_self e t),
        Option.getD_some]
    have hclean : |(if |e.2| < 1 / 1000000000000 then 0 else e.2) - e.2|
        ≤ 1 / 1000000000000 := by
      split_ifs with h1
      · rw [zero_sub, abs_neg]
        exact le_of_lt h1
      · simp
    have hL' : ∀ e' ∈ t, lookupA (cleanupStep Eold acc e).1 e'.1 = some e'.2 := by
      intro e' he'
      have hne : e'.1 ≠ e.1 := by
        intro hcon
        exact (List.nodup_cons.mp hnd).1
          (by rw [← hcon]; exact List.mem_map.mpr ⟨e', he', rfl⟩)
      rw [hstep1, lookupA_setA_ne _ _ _ _ hne]
      exact hL e' (List.mem_cons_of_mem e he')
    have hih := ih (cleanupStep Eold acc e) hL' (List.nodup_cons.mp hnd).2
    rw [List.foldl_cons]
    have htri : |sumA (t.foldl (cleanupStep Eold) (cleanupStep Eold acc e)).1
        - sumA acc.1| ≤
        |sumA (t.foldl (cleanupStep Eold) (cleanupStep Eold acc e)).1
          - sumA (cleanupStep Eold acc e).1|
        + |sumA (cleanupStep Eold acc e).1 - sumA acc.1| := by
      have := abs_sub_le
        (sumA (t.foldl (cleanupStep Eold) (cleanupStep Eold acc e)).1)
        (sumA (cleanupStep Eold acc e).1) (sumA acc.1)
      exact this
    have hone : |sumA (cleanupStep Eold acc e).1 - sumA acc.1|
        ≤ 1 / 1000000000000 := by
      rw [hsum1]
      have : sumA acc.1 - e.2 + (if |e.2| < 1 / 1000000000000 then 0 else e.2)
          - sumA acc.1 = (if |e.2| < 1 / 1000000000000 then 0 else e.2) - e.2 := by
        ring
      rw [this]
      exact hclean
    calc |sumA (t.foldl (cleanupStep Eold) (cleanupStep Eold acc e)).1
        - sumA acc.1|
        ≤ |sumA (t.foldl (cleanupStep Eold) (cleanupStep Eold acc e)).1
          - sumA (cleanupStep Eold acc e).1|
        + |sumA (cleanupStep Eold acc e).1 - sumA acc.1| := htri
      _ ≤ t.length * (1 / 1000000000000) + 1 / 1000000000000 := by
          exact add_le_add hih hone
      _ = (e :: t).length * (1 / 1000000000000) := by
          rw [List.length_cons]
          push_cast
          ring

/-- C1: on a state with no entities, capacitors, or reservoirs, one tick
changes the total field energy only through the end-of-tick snap of
sub-`1e-12` magnitudes to 0 — the diffusion itself is exactly conservative
— so the total moves by at most `1e-12` per cell. -/
theorem C1_conservation (rand : ℕ → ℚ) (st : SimulationState)
    (hents : st.entities = []) (hcaps : st.capacitors = [])
    (hres : st.reservoirs = []) (hnd : (keysA st.E).Nodup) :
    |sumA (tickSimulation rand st).nextState.E - sumA st.E|
      ≤ (keysA st.E).length * (1 / 1000000000000) := by
  have hsrc : sourcesOf st.entities = [] := by rw [hents]; rfl
  have hsin : sinksOf st.entities = [] := by rw [hents]; rfl
  have hpro : probesOf st.entities = [] := by rw [hents]; rfl
  have hE1 : tickE1 st = st.E := by rw [tickE1, hsin]; rfl
  have hInj : tickInj st = (st.E, []) := by rw [tickInj, hsrc, hE1]; rfl
  have hDelta : tickDelta st
      = diffusionDeltas st.E (tickCond st) st.baseConductivity
        st.diffusionAlpha := by
    rw [tickDelta, hInj]
  have hE3 : tickE3 st = applyDeltas [] (tickDelta st) st.E := by
    rw [tickE3, hsin, hInj]
    rfl
  have hE4 : tickE4 st = tickE3 st := by rw [tickE4, hsin]; rfl
  have hgroups : tickGroups rand st = [] := by rw [tickGroups, hpro]; rfl
  have hcoll : (tickColl rand st).E = tickE4 st := by
    rw [tickColl, hgroups, collectPhase]
    rfl
  have hnext : (tickSimulation rand st).nextState.E
      = (cleanupPhase st.E (tickE3 st)).1 := by
    show (tickCleaned rand st).1 = _
    rw [tickCleaned, hcoll, hE4]
  have hsum3 : sumA (tickE3 st) = sumA st.E := by
    rw [hE3, sumA_applyDeltas_nil, hDelta, sumA_diffusionDeltas]
    ring
  have hkeys3 : keysA (tickE3 st) = keysA st.E := by
    rw [hE3]
    refine keysA_applyDeltas _ _ _ ?_
    intro e he
    rw [hDelta] at he
    exact keysA_diffusionDeltas_sub _ _ _ _ e.1 (List.mem_map.mpr ⟨e, he, rfl⟩)
  have hnd3 : ((tickE3 st).map (fun e => e.1)).Nodup := by
    show (keysA (tickE3 st)).Nodup
    rw [hkeys3]
    exact hnd
  have hlen3 : (tickE3 st).length = (keysA st.E).length := by
    rw [← hkeys3, keysA, List.length_map]
  have hbound := cleanup_sum_bound st.E (tickE3 st) (tickE3 st, [])
    (entries_lookup_of_nodup (tickE3 st) hnd3) hnd3
  rw [hnext, cleanupPhase]
  calc |sumA ((tickE3 st).foldl (cleanupStep st.E) (tickE3 st, [])).1
      - sumA st.E|
      = |sumA ((tickE3 st).foldl (cleanupStep st.E) (tickE3 st, [])).1
        - sumA (tickE3 st, []).1| := by rw [show sumA ((tickE3 st, ([] : List (Coord × ℚ)))).1 = sumA st.E from hsum3]
    _ ≤ (tickE3 st).length * (1 / 1000000000000) := hbound
    _ = (keysA st.E).length * (1 / 1000000000000) := by rw [hlen3]

/-- Witness for C1 on the entity-free hot-center board (7 cells). -/
theorem C1_witness :
    |sumA (tickSimulation (fun _ => 0) (hotCenterState (1/10))).nextState.E
      - sumA (hotCenterState (1/10)).E|
      ≤ (keysA (hotCenterState (1/10)).E).length * (1 / 1000000000000) :=
  C1_conservation (fun _ => 0) (hotCenterState (1/10)) rfl rfl rfl (by decide)

end Reactor
